import Mathlib

/-!
Verification of the stocks-rss pipeline (data_providers.py, build_all.py,
main.py, utils.py, rss_builder.py) against its natural-language specification.

Modelling conventions (shallow embedding):

* Python floats are modelled as exact rationals (`Rat`).  Because the
  arithmetic operations of `Rat` in this toolchain are `@[irreducible]`
  (which blocks kernel evaluation at concrete inputs), we use equivalent
  kernel-computable operations `radd`/`rsub`/`rmul`/`rdiv` built on
  `Rat.divInt`; lemmas `radd_eq` … `rdiv_eq` prove they agree with the
  library operations.
* Python `round` (banker's rounding, half to even) is `pyRound`;
  `round(x, 2)` and the `f"{x:.2f}"`-then-`float` round trip are `roundTo2`.
* Strings are Lean `String`s.  `str.strip()` / `str.lower()` / `str.upper()`
  are modelled for the ASCII range by `pyStrip` / `pyLower` / `pyUpper`.
* Raw cells of a provider response (pandas cells / JSON fields) are `Cell`:
  either a value that `_to_float` successfully parses (`Cell.num q`) or one
  it maps to `None` — missing, empty, `"—"`, `"nan"`, unparseable (`Cell.na`).
  `to_float` is the model of `_to_float`.
* Python `dict`s keyed by strings are association lists with Python's
  insertion semantics (`dinsert`: overwrite in place, append if new).
* `DataFrame.sort_values(k)` followed by `iloc[-1]` / `iloc[-2]` is modelled
  by a stable insertion sort `sortByKey` followed by `getLast?` /
  `dropLast.getLast?`.
* Network / external-library calls are oracle parameters.  Calls that the
  code makes at most once per request site take the attempt index `0` of an
  attempt-indexed oracle (`Nat → Except Unit …`), so that retry behaviour —
  or its absence — is observable.  An `Except.error` result models a raised
  exception (network failure, rate limit, JSON/schema decode failure).
* A Python function that may raise an exception that escapes to its caller
  is modelled in the `Except String` monad; a function whose body catches
  everything is total.
-/

namespace StocksRss

/-! ## Exact rational arithmetic, kernel-computable -/

/-- Addition on `Rat` via `Rat.divInt` (kernel-computable). -/
def radd (a b : Rat) : Rat :=
  Rat.divInt (a.num * (b.den : Int) + b.num * (a.den : Int)) ((a.den : Int) * (b.den : Int))

/-- Subtraction on `Rat` via `Rat.divInt` (kernel-computable). -/
def rsub (a b : Rat) : Rat :=
  Rat.divInt (a.num * (b.den : Int) - b.num * (a.den : Int)) ((a.den : Int) * (b.den : Int))

/-- Multiplication on `Rat` via `Rat.divInt` (kernel-computable). -/
def rmul (a b : Rat) : Rat :=
  Rat.divInt (a.num * b.num) ((a.den : Int) * (b.den : Int))

/-- Division on `Rat` via `Rat.divInt` (kernel-computable); division by zero
gives zero, matching `Rat.div` (`inv 0 = 0`).  The Python code never divides
by zero on the paths we model (guards `prev_close != 0` etc.). -/
def rdiv (a b : Rat) : Rat :=
  Rat.divInt (a.num * (b.den : Int)) ((a.den : Int) * b.num)

/-- Rational constant `n`. -/
def rofInt (n : Int) : Rat := mkRat n 1

theorem radd_eq (a b : Rat) : radd a b = a + b := by
  rw [radd, Rat.add_def, Rat.normalize_eq_mkRat, Rat.divInt_eq_div, Rat.mkRat_eq_div]
  push_cast
  ring_nf

theorem rsub_eq (a b : Rat) : rsub a b = a - b := by
  rw [rsub, Rat.sub_def, Rat.normalize_eq_mkRat, Rat.divInt_eq_div, Rat.mkRat_eq_div]
  push_cast
  ring_nf

theorem rmul_eq (a b : Rat) : rmul a b = a * b := by
  rw [rmul, Rat.mul_def, Rat.normalize_eq_mkRat, Rat.divInt_eq_div, Rat.mkRat_eq_div]
  push_cast
  ring_nf

theorem rdiv_eq (a b : Rat) : rdiv a b = a / b := by
  rw [rdiv, Rat.div_def']

/-- Python `round(q)`: round half to even (banker's rounding), computed on
the numerator/denominator so that it kernel-evaluates. -/
def pyRound (q : Rat) : Int :=
  let d : Int := (q.den : Int)
  let f : Int := q.num.fdiv d
  let rem : Int := q.num - f * d
  if 2 * rem < d then f else if d < 2 * rem then f + 1 else if f % 2 = 0 then f else f + 1

/-- Python `round(q, 2)`, and also the `float(f"{q:.2f}")` round trip:
round to two decimal places, half to even. -/
def roundTo2 (q : Rat) : Rat := mkRat (pyRound (rmul q (rofInt 100))) 100

/-- Python `int(q)` on a float: truncation toward zero. -/
def pyInt (q : Rat) : Int := if q.num < 0 then -((Rat.neg q).floor) else q.floor

/-! ## ASCII models of Python string primitives -/

/-- The whitespace characters stripped by Python's `str.strip()` (ASCII part:
space, tab, newline, carriage return, vertical tab, form feed). -/
def isPySpace (c : Char) : Bool :=
  c == ' ' || c == '\t' || c == '\n' || c == '\r' || c == '\x0b' || c == '\x0c'

/-- ASCII decimal digit, the model of the regex class `\d`. -/
def isDigitChar (c : Char) : Bool := decide ('0' ≤ c) && decide (c ≤ '9')

/-- `str.lower()` on one character (ASCII range). -/
def pyLowerChar (c : Char) : Char :=
  if 'A' ≤ c ∧ c ≤ 'Z' then Char.ofNat (c.toNat + 32) else c

/-- `str.upper()` on one character (ASCII range). -/
def pyUpperChar (c : Char) : Char :=
  if 'a' ≤ c ∧ c ≤ 'z' then Char.ofNat (c.toNat - 32) else c

/-- `str.strip()` (ASCII whitespace). -/
def pyStrip (s : String) : String :=
  ⟨((s.data.dropWhile isPySpace).reverse.dropWhile isPySpace).reverse⟩

/-- `str.lower()` (ASCII range). -/
def pyLower (s : String) : String := ⟨s.data.map pyLowerChar⟩

/-- `str.upper()` (ASCII range). -/
def pyUpper (s : String) : String := ⟨s.data.map pyUpperChar⟩

/-- `str.zfill(6)`: left-pad with `'0'` to length 6 (the codes fed to it
carry no sign character). -/
def zfill6 (s : String) : String := ⟨List.replicate (6 - s.data.length) '0' ++ s.data⟩

/-- Python `str(x)` of a float-or-None value: `None` prints as `"None"`,
a number prints through the given float formatter. -/
def pyOptStr (srep : Rat → String) : Option Rat → String
  | none => "None"
  | some v => srep v

/-! ## Small list/string lemmas used throughout -/

instance instDecEqExcept {ε α : Type} [DecidableEq ε] [DecidableEq α] :
    DecidableEq (Except ε α) := fun a b =>
  match a, b with
  | .ok x, .ok y =>
    if h : x = y then .isTrue (by rw [h]) else .isFalse (by intro hc; cases hc; exact h rfl)
  | .error x, .error y =>
    if h : x = y then .isTrue (by rw [h]) else .isFalse (by intro hc; cases hc; exact h rfl)
  | .ok _, .error _ => .isFalse (by intro hc; cases hc)
  | .error _, .ok _ => .isFalse (by intro hc; cases hc)

theorem data_append (s t : String) : (s ++ t).data = s.data ++ t.data := by
  cases s; cases t; rfl

theorem data_inj {s t : String} (h : s.data = t.data) : s = t :=
  congrArg String.mk h

theorem dropWhile_eq_self_of_all {p : Char → Bool} {l : List Char}
    (h : ∀ c ∈ l, p c = false) : l.dropWhile p = l := by
  cases l with
  | nil => rfl
  | cons a l => simp [List.dropWhile_cons, h a (by simp)]

theorem lookup_eq_some_mem {α : Type} {l : List (String × α)} {k : String} {v : α}
    (h : List.lookup k l = some v) : (k, v) ∈ l := by
  induction l with
  | nil => simp at h
  | cons a l ih =>
    rw [List.lookup_cons] at h
    by_cases hk : k == a.1
    · rw [hk] at h
      simp only [Option.some.injEq] at h
      have : k = a.1 := by simpa using hk
      subst this
      subst h
      simp
    · rw [Bool.not_eq_true] at hk
      rw [hk] at h
      exact List.mem_cons_of_mem _ (ih h)

/-! ## Python dicts as association lists -/

/-- One Python-dict insertion step `d[k] = v`: overwrite in place if the key
exists, else append at the end (Python dicts preserve insertion order). -/
def dinsert {α : Type} : List (String × α) → String → α → List (String × α)
  | [], k, v => [(k, v)]
  | (k', v') :: rest, k, v =>
    if k' = k then (k, v) :: rest else (k', v') :: dinsert rest k v

theorem lookup_dinsert {α : Type} (d : List (String × α)) (k : String) (v : α) (k' : String) :
    List.lookup k' (dinsert d k v) = if k' = k then some v else List.lookup k' d := by
  induction d with
  | nil =>
    by_cases h : k' = k
    · simp [dinsert, List.lookup_cons, h]
    · simp [dinsert, List.lookup_cons, h, (by simpa using h : ¬ (k' == k) = true)]
  | cons a d ih =>
    obtain ⟨ka, va⟩ := a
    simp only [dinsert]
    by_cases h1 : ka = k
    · subst h1
      by_cases h2 : k' = ka
      · subst h2
        simp [List.lookup_cons]
      · simp [List.lookup_cons, h2, (by simpa using h2 : ¬ (k' == ka) = true)]
    · rw [if_neg h1]
      by_cases h2 : k' = ka
      · subst h2
        simp [List.lookup_cons, h1]
      · simp [List.lookup_cons, (by simpa using h2 : ¬ (k' == ka) = true), ih]

theorem lookup_dinsert_cases {α : Type} {d : List (String × α)} {k k' : String} {v w : α}
    (h : List.lookup k' (dinsert d k v) = some w) :
    (k' = k ∧ w = v) ∨ List.lookup k' d = some w := by
  rw [lookup_dinsert] at h
  by_cases hk : k' = k
  · rw [if_pos hk] at h
    exact Or.inl ⟨hk, by simpa using h.symm⟩
  · rw [if_neg hk] at h
    exact Or.inr h

theorem lookup_dinsert_isSome {α : Type} {d : List (String × α)} {k k' : String} {v : α}
    (h : (List.lookup k' d).isSome) : (List.lookup k' (dinsert d k v)).isSome := by
  rw [lookup_dinsert]
  by_cases hk : k' = k
  · simp [hk]
  · simpa [hk] using h

/-! ## Stable sort by a string key: `DataFrame.sort_values` -/

/-- Insert into an ascending-sorted list, after any equal keys (stability). -/
def insSorted {α : Type} (key : α → String) (x : α) : List α → List α
  | [] => [x]
  | y :: ys => if key y ≤ key x then y :: insSorted key x ys else x :: y :: ys

/-- Stable ascending sort by a string key, the model of
`df.sort_values(key)`. -/
def sortByKey {α : Type} (key : α → String) (l : List α) : List α :=
  l.foldl (fun acc x => insSorted key x acc) []

theorem mem_insSorted {α : Type} {key : α → String} {x a : α} {l : List α}
    (h : a ∈ insSorted key x l) : a = x ∨ a ∈ l := by
  induction l with
  | nil => simpa [insSorted] using h
  | cons y ys ih =>
    rw [insSorted] at h
    by_cases hle : key y ≤ key x
    · rw [if_pos hle] at h
      rcases List.mem_cons.mp h with h1 | h2
      · exact Or.inr (by simp [h1])
      · rcases ih h2 with h3 | h4
        · exact Or.inl h3
        · exact Or.inr (List.mem_cons_of_mem _ h4)
    · rw [if_neg hle] at h
      rcases List.mem_cons.mp h with h1 | h2
      · exact Or.inl h1
      · exact Or.inr h2

theorem mem_sortByKey_aux {α : Type} {key : α → String} {a : α} :
    ∀ (l acc : List α), a ∈ l.foldl (fun acc x => insSorted key x acc) acc → a ∈ l ∨ a ∈ acc := by
  intro l
  induction l with
  | nil => intro acc h; exact Or.inr h
  | cons x xs ih =>
    intro acc h
    rcases ih (insSorted key x acc) h with h1 | h2
    · exact Or.inl (List.mem_cons_of_mem _ h1)
    · rcases mem_insSorted h2 with h3 | h4
      · exact Or.inl (by simp [h3])
      · exact Or.inr h4

theorem mem_sortByKey {α : Type} {key : α → String} {a : α} {l : List α}
    (h : a ∈ sortByKey key l) : a ∈ l := by
  rcases mem_sortByKey_aux l [] h with h1 | h2
  · exact h1
  · simp at h2

/-! ## Character-class lemmas -/

theorem digit_not_space {c : Char} (h : isDigitChar c = true) : isPySpace c = false := by
  rw [isDigitChar, Bool.and_eq_true, decide_eq_true_eq, decide_eq_true_eq] at h
  obtain ⟨h0, h9⟩ := h
  rw [isPySpace]
  by_contra hc
  rw [Bool.not_eq_false] at hc
  simp only [Bool.or_eq_true, beq_iff_eq] at hc
  rcases hc with ((((h | h) | h) | h) | h) | h <;> (subst h; revert h0 h9; decide)

theorem digit_lower_fix {c : Char} (h : isDigitChar c = true) : pyLowerChar c = c := by
  rw [isDigitChar, Bool.and_eq_true, decide_eq_true_eq, decide_eq_true_eq] at h
  rw [pyLowerChar, if_neg]
  rintro ⟨hA, _⟩
  exact absurd (le_trans hA h.2) (by decide)

/-! ## Cells of a decoded provider response, and `_to_float`

`data_providers._to_float` turns a raw cell into `float` or `None`: it
strips `","`/`"%"`, maps `""`, `"—"`, `"nan"` and anything unparseable to
`None`.  We model a raw cell by what `_to_float` does to it: `Cell.num q`
is a cell parsing to the number `q`, `Cell.na` is a missing cell or any
cell parsing to `None`. -/

inductive Cell
  | num (q : Rat)
  | na
deriving DecidableEq, Repr

/-- Model of `_to_float` on a `Cell`. -/
def to_float : Cell → Option Rat
  | .num q => some q
  | .na => none

/-! ## `normalize_code` (data_providers.py lines 46–57) -/

/-- The regex `^(sh|sz)\d{6}$`. -/
def matchesPrefixed (s : String) : Bool :=
  match s.data with
  | c1 :: c2 :: rest =>
    c1 == 's' && (c2 == 'h' || c2 == 'z') && rest.length == 6 && rest.all isDigitChar
  | _ => false

/-- The regex `^\d{6}$`. -/
def isBare6 (s : String) : Bool := s.data.length == 6 && s.data.all isDigitChar

/-- `code[0] in "695"`. -/
def headIn695 (s : String) : Bool :=
  match s.data with
  | d :: _ => d == '6' || d == '9' || d == '5'
  | [] => false

/-- `normalize_code` from data_providers.py: strip and lowercase the input;
return it if it already matches `^(sh|sz)\d{6}$`; prefix a bare 6-digit code
with `sh` (leading digit 6/9/5) or `sz` (other leading digits); otherwise
raise `ValueError` (modelled as `Except.error`). -/
def normalize_code (code : String) : Except String String :=
  let c := pyLower (pyStrip code)
  if matchesPrefixed c then .ok c
  else if isBare6 c then .ok ((if headIn695 c then "sh" else "sz") ++ c)
  else .error ("非法股票代码：" ++ c)

theorem pyStrip_eq_self {s : String} (h : ∀ ch ∈ s.data, isPySpace ch = false) :
    pyStrip s = s := by
  apply data_inj
  show ((s.data.dropWhile isPySpace).reverse.dropWhile isPySpace).reverse = s.data
  rw [dropWhile_eq_self_of_all h,
    dropWhile_eq_self_of_all (fun c hc => h c (List.mem_reverse.mp hc)),
    List.reverse_reverse]

theorem map_eq_self_of_all {α : Type} {f : α → α} :
    ∀ {l : List α}, (∀ c ∈ l, f c = c) → l.map f = l
  | [], _ => rfl
  | a :: l, h => by
    rw [List.map_cons, h a (by simp), map_eq_self_of_all (fun c hc => h c (by simp [hc]))]

theorem pyLower_eq_self {s : String} (h : ∀ ch ∈ s.data, pyLowerChar ch = ch) :
    pyLower s = s := by
  apply data_inj
  show s.data.map pyLowerChar = s.data
  exact map_eq_self_of_all h

theorem matchesPrefixed_shape {s : String} (h : matchesPrefixed s = true) :
    ∃ x ds, s.data = 's' :: x :: ds ∧ (x = 'h' ∨ x = 'z') ∧ ds.length = 6 ∧
      ∀ c ∈ ds, isDigitChar c = true := by
  rw [matchesPrefixed] at h
  rcases hd : s.data with _ | ⟨c1, _ | ⟨c2, rest⟩⟩ <;> rw [hd] at h
  · simp at h
  · simp at h
  · simp only [Bool.and_eq_true, Bool.or_eq_true, beq_iff_eq, List.all_eq_true] at h
    obtain ⟨⟨⟨h1, h2⟩, h3⟩, h4⟩ := h
    subst h1
    exact ⟨c2, rest, rfl, h2, by simpa using h3, h4⟩

theorem canonical_no_space {s : String} (h : matchesPrefixed s = true) :
    ∀ ch ∈ s.data, isPySpace ch = false := by
  obtain ⟨x, ds, hd, hx, _, hdig⟩ := matchesPrefixed_shape h
  intro ch hch
  rw [hd] at hch
  rcases List.mem_cons.mp hch with h1 | hch
  · subst h1; decide
  rcases List.mem_cons.mp hch with h1 | hch
  · subst h1; rcases hx with h2 | h2 <;> (subst h2; decide)
  · exact digit_not_space (hdig ch hch)

theorem canonical_lower_fix {s : String} (h : matchesPrefixed s = true) :
    ∀ ch ∈ s.data, pyLowerChar ch = ch := by
  obtain ⟨x, ds, hd, hx, _, hdig⟩ := matchesPrefixed_shape h
  intro ch hch
  rw [hd] at hch
  rcases List.mem_cons.mp hch with h1 | hch
  · subst h1; decide
  rcases List.mem_cons.mp hch with h1 | hch
  · subst h1; rcases hx with h2 | h2 <;> (subst h2; decide)
  · exact digit_lower_fix (hdig ch hch)

theorem bare6_digits {s : String} (h : isBare6 s = true) :
    ∀ ch ∈ s.data, isDigitChar ch = true := by
  rw [isBare6, Bool.and_eq_true, List.all_eq_true] at h
  exact h.2

theorem bare6_not_matchesPrefixed {s : String} (h : isBare6 s = true) :
    matchesPrefixed s = false := by
  have hdig := bare6_digits h
  rw [matchesPrefixed]
  rcases hd : s.data with _ | ⟨c1, _ | ⟨c2, rest⟩⟩
  · rfl
  · rfl
  · simp only [Bool.and_eq_true, Bool.or_eq_true, beq_iff_eq]
    by_contra hc
    rw [Bool.not_eq_false, Bool.and_eq_true, Bool.and_eq_true, Bool.and_eq_true] at hc
    have h1 : (c1 == 's') = true := hc.1.1.1
    have hc1 : c1 = 's' := by simpa using h1
    have : isDigitChar c1 = true := hdig c1 (by rw [hd]; simp)
    rw [hc1] at this
    exact absurd this (by decide)

/-- The strip-and-lowercase preprocessing fixes a string that already
matches `^(sh|sz)\d{6}$`. -/
theorem preprocess_fix_canonical {s : String} (h : matchesPrefixed s = true) :
    pyLower (pyStrip s) = s := by
  rw [pyStrip_eq_self (canonical_no_space h), pyLower_eq_self (canonical_lower_fix h)]

/-- The strip-and-lowercase preprocessing fixes a bare 6-digit string. -/
theorem preprocess_fix_bare6 {s : String} (h : isBare6 s = true) :
    pyLower (pyStrip s) = s := by
  have hdig := bare6_digits h
  rw [pyStrip_eq_self (fun c hc => digit_not_space (hdig c hc)),
    pyLower_eq_self (fun c hc => digit_lower_fix (hdig c hc))]

theorem normalize_code_canonical {s : String} (h : matchesPrefixed s = true) :
    normalize_code s = .ok s := by
  rw [normalize_code]
  simp only [preprocess_fix_canonical h, h, if_true]

theorem normalize_code_bare6 {s : String} (h : isBare6 s = true) :
    normalize_code s = .ok ((if headIn695 s then "sh" else "sz") ++ s) := by
  rw [normalize_code]
  simp only [preprocess_fix_bare6 h, bare6_not_matchesPrefixed h, h, if_true,
    Bool.false_eq_true, if_false]

theorem matchesPrefixed_sh_append {s : String} (h : isBare6 s = true) :
    matchesPrefixed ("sh" ++ s) = true := by
  rw [isBare6, Bool.and_eq_true] at h
  have hd : ("sh" ++ s).data = 's' :: 'h' :: s.data := by rw [data_append]; rfl
  have h6 : s.length = 6 := by have h1 := h.1; simp only [beq_iff_eq] at h1; exact h1
  rw [matchesPrefixed, hd]
  simp [h6, h.2]

theorem matchesPrefixed_sz_append {s : String} (h : isBare6 s = true) :
    matchesPrefixed ("sz" ++ s) = true := by
  rw [isBare6, Bool.and_eq_true] at h
  have hd : ("sz" ++ s).data = 's' :: 'z' :: s.data := by rw [data_append]; rfl
  have h6 : s.length = 6 := by have h1 := h.1; simp only [beq_iff_eq] at h1; exact h1
  rw [matchesPrefixed, hd]
  simp [h6, h.2]

/-- Every successful output of `normalize_code` is canonical
(`^(sh|sz)\d{6}$`). -/
theorem normalize_code_output_canonical {s out : String}
    (h : normalize_code s = .ok out) : matchesPrefixed out = true := by
  rw [normalize_code] at h
  by_cases h1 : matchesPrefixed (pyLower (pyStrip s)) = true
  · rw [h1] at h
    simp only [if_true, Except.ok.injEq] at h
    rw [← h]
    exact h1
  · rw [Bool.not_eq_true] at h1
    rw [h1] at h
    simp only [Bool.false_eq_true, if_false] at h
    by_cases h2 : isBare6 (pyLower (pyStrip s)) = true
    · rw [h2] at h
      simp only [if_true, Except.ok.injEq] at h
      rw [← h]
      by_cases h3 : headIn695 (pyLower (pyStrip s)) = true
      · rw [h3, if_pos rfl]
        exact matchesPrefixed_sh_append h2
      · rw [Bool.not_eq_true] at h3
        rw [h3]
        simp only [Bool.false_eq_true, if_false]
        exact matchesPrefixed_sz_append h2
    · rw [Bool.not_eq_true] at h2
      rw [h2] at h
      simp at h

/-- Claim C3 fails as stated: `"SH600519"` matches neither the canonical
pattern `^(sh|sz)\d{6}$` nor the bare-6-digit pattern, so by the claim's
three-case rule it must be rejected with `ValueError`; the code instead
strips/lowercases first and accepts it, returning `"sh600519"` (which also
differs from the input, so it is not "returned unchanged" either). -/
theorem C3_counterexample :
    matchesPrefixed "SH600519" = false ∧ isBare6 "SH600519" = false ∧
      normalize_code "SH600519" = .ok "sh600519" := by
  refine ⟨by decide, by decide, ?_⟩
  decide

/-- Claim C3 (amended): `normalize_code` first strips surrounding whitespace
and lowercases the input, then applies the three-case rule to the result:
(1) a string already matching `^(sh|sz)\d{6}$` is returned unchanged, and in
general the stripped/lowercased form is returned whenever it matches;
(2) a bare 6-digit string gets its exchange assigned solely by the leading
digit (6/9/5 → `sh`, all others → `sz`); (3) every other input fails with
`ValueError`. -/
theorem C3_normalize_code_three_cases :
    (∀ s, matchesPrefixed s = true → normalize_code s = .ok s) ∧
    (∀ s, isBare6 s = true →
      normalize_code s = .ok ((if headIn695 s then "sh" else "sz") ++ s)) ∧
    (∀ s, matchesPrefixed (pyLower (pyStrip s)) = true →
      normalize_code s = .ok (pyLower (pyStrip s))) ∧
    (∀ s, matchesPrefixed (pyLower (pyStrip s)) = false →
      isBare6 (pyLower (pyStrip s)) = false →
      normalize_code s = .error ("非法股票代码：" ++ pyLower (pyStrip s))) := by
  refine ⟨fun s h => normalize_code_canonical h, fun s h => normalize_code_bare6 h,
    fun s h => ?_, fun s h1 h2 => ?_⟩
  · rw [normalize_code]
    simp only [h, if_true]
  · rw [normalize_code]
    simp only [h1, h2, Bool.false_eq_true, if_false]

/-- Witness for C3's amended theorem: all four cases at concrete inputs. -/
theorem C3_witness :
    (matchesPrefixed "sh600519" = true ∧ normalize_code "sh600519" = .ok "sh600519") ∧
    (isBare6 "600519" = true ∧
      normalize_code "600519" = .ok ((if headIn695 "600519" then "sh" else "sz") ++ "600519")) ∧
    (matchesPrefixed (pyLower (pyStrip " SH600519 ")) = true ∧
      normalize_code " SH600519 " = .ok (pyLower (pyStrip " SH600519 "))) ∧
    (matchesPrefixed (pyLower (pyStrip "abc")) = false ∧
      isBare6 (pyLower (pyStrip "abc")) = false ∧
      normalize_code "abc" = .error ("非法股票代码：" ++ pyLower (pyStrip "abc"))) :=
  ⟨⟨by decide, C3_normalize_code_three_cases.1 "sh600519" (by decide)⟩,
   ⟨by decide, C3_normalize_code_three_cases.2.1 "600519" (by decide)⟩,
   ⟨by decide, C3_normalize_code_three_cases.2.2.1 " SH600519 " (by decide)⟩,
   ⟨by decide, by decide, C3_normalize_code_three_cases.2.2.2 "abc" (by decide) (by decide)⟩⟩

/-- Claim C4: on bare 6-digit numeric identifiers `normalize_code` is total
(never raises), deterministic, and idempotent on its own output. -/
theorem C4_bare6_total_deterministic_idempotent :
    ∀ s, isBare6 s = true →
      (normalize_code s).isOk = true ∧
      (∀ t, t = s → normalize_code t = normalize_code s) ∧
      (∀ out, normalize_code s = .ok out → normalize_code out = .ok out) := by
  intro s h
  refine ⟨by rw [normalize_code_bare6 h]; rfl, fun t ht => by rw [ht], fun out hout => ?_⟩
  exact normalize_code_canonical (normalize_code_output_canonical hout)

/-- Witness for C4 at the bare code `"600519"`. -/
theorem C4_witness :
    isBare6 "600519" = true ∧
      (normalize_code "600519").isOk = true ∧
      normalize_code "sh600519" = .ok "sh600519" :=
  ⟨by decide,
   (C4_bare6_total_deterministic_idempotent "600519" (by decide)).1,
   (C4_bare6_total_deterministic_idempotent "600519" (by decide)).2.2 "sh600519" (by decide)⟩

/-! ## Float string formatting

Python renders floats with format specs (`str(x)`, `f"{x:.2f}"`,
`f"{x:+.2f}"`, `f"{x:.0f}"`, `f"{x:,.0f}"`, `f"{n:,}"`).  The decimal
rendering itself is irrelevant to every claim (only *which* branch produces
the string matters), so the renderers are abstract parameters, bundled in
`PyFmt`.  What the claims do depend on — the `None` checks and the sign /
magnitude branches around the renderers — is modelled exactly. -/

structure PyFmt where
  rep : Rat → String
  f2 : Rat → String
  p2 : Rat → String
  f0 : Rat → String
  c0 : Rat → String
  ci : Int → String

/-- Python `abs` on a float. -/
def rabs (q : Rat) : Rat := if q < rofInt 0 then Rat.neg q else q

/-- `utils.fmt_yn`: `"—" if v is None else f"{v:,.0f}"`. -/
def fmt_yn (fmt : PyFmt) : Option Rat → String
  | none => "—"
  | some v => fmt.c0 v

/-- `utils.fmt_pct`: placeholder on `None`, else an arrow by sign and the
absolute value to two decimals with a percent sign. -/
def fmt_pct (fmt : PyFmt) : Option Rat → String
  | none => "—"
  | some v => (if rofInt 0 ≤ v then "↑" else "↓") ++ fmt.f2 (rabs v) ++ "%"

/-- `build_all.to_yi_from_wan`: placeholder on `None`; otherwise render in
亿 (hundred-million) units when `abs(v/1e4) >= 1`, else in 万 units. -/
def to_yi_from_wan (fmt : PyFmt) : Option Rat → String
  | none => "—"
  | some v =>
    let yi := rdiv v (rofInt 10000)
    if rofInt 1 ≤ rabs yi then fmt.f2 yi ++ " 亿" else fmt.f0 v ++ " 万"

/-- `build_all.fmt_wan_int`: placeholder on `None`, else `int(v)` with
thousands separators and a 万 suffix. -/
def fmt_wan_int (fmt : PyFmt) : Option Rat → String
  | none => "—"
  | some v => fmt.ci (pyInt v) ++ " 万"

/-- `build_all.dir_arrow`: placeholder on `None`, else an inflow/outflow
arrow by sign (zero gives the placeholder). -/
def dir_arrow : Option Rat → String
  | none => "—"
  | some v => if rofInt 0 < v then "↑流入" else if v < rofInt 0 then "↓流出" else "—"

/-- Claim C5: on an absent (`None`) numeric field every downstream
formatting function returns the placeholder `"—"` and, being total
functions over `Option`, none of them can raise. -/
theorem C5_formatting_none_placeholder :
    ∀ fmt : PyFmt,
      fmt_yn fmt none = "—" ∧
      fmt_pct fmt none = "—" ∧
      fmt_wan_int fmt none = "—" ∧
      dir_arrow none = "—" ∧
      to_yi_from_wan fmt none = "—" :=
  fun _ => ⟨rfl, rfl, rfl, rfl, rfl⟩

/-! ## Column-alias resolution: `pick` (data_providers.py lines 126–132) -/

/-- `pick` from `get_northbound_overview`: walk the alias list in order;
for each alias present in the row, parse its value with `_to_float`; return
the first value that parses to a number, else fall through. -/
def pick (row : List (String × Cell)) (cols : List String) : Option Rat :=
  match cols with
  | [] => none
  | c :: rest =>
    match List.lookup c row with
    | some cell =>
      match to_float cell with
      | some v => some v
      | none => pick row rest
    | none => pick row rest

/-- The spec's wording of column-alias resolution, for comparison: return
the (parsed) value of the first alias that matches a column of the row,
regardless of whether that value parses to a number. -/
def pickSpec (row : List (String × Cell)) (cols : List String) : Option Rat :=
  match cols with
  | [] => none
  | c :: rest =>
    match List.lookup c row with
    | some cell => to_float cell
    | none => pickSpec row rest

/-- Claim C7 fails as stated: in a row where the first alias `"sh_net"` is
present but holds an unparseable cell (e.g. `"nan"`) and the second alias
`"hgt"` holds `5`, the code returns `5` — the value of the *second* alias —
whereas the first alias in list order that matches a column is `"sh_net"`
(whose value parses to `None`, as `pickSpec` shows). -/
theorem C7_counterexample :
    pick [("sh_net", Cell.na), ("hgt", Cell.num (rofInt 5))] ["sh_net", "hgt"]
        = some (rofInt 5) ∧
      pickSpec [("sh_net", Cell.na), ("hgt", Cell.num (rofInt 5))] ["sh_net", "hgt"] = none ∧
      (List.lookup "sh_net" [("sh_net", Cell.na), ("hgt", Cell.num (rofInt 5))]).isSome = true := by
  refine ⟨by decide, by decide, by decide⟩

/-- Claim C7 (amended): `pick` returns the parsed value of the first alias
in list order that is present in the row *and* whose value parses to a
number; aliases that are absent, or present with a null/unparseable value,
are skipped.  Exchanging two aliases that both resolve can change the
result, so the list order encodes precedence. -/
theorem C7_first_resolving_alias_wins :
    (∀ row cols, pick row cols =
      cols.findSome? (fun c => (List.lookup c row).bind to_float)) ∧
    pick [("sh_net", Cell.num (rofInt 3)), ("hgt", Cell.num (rofInt 5))] ["sh_net", "hgt"]
        = some (rofInt 3) ∧
    pick [("sh_net", Cell.num (rofInt 3)), ("hgt", Cell.num (rofInt 5))] ["hgt", "sh_net"]
        = some (rofInt 5) := by
  refine ⟨fun row cols => ?_, by decide, by decide⟩
  induction cols with
  | nil => rfl
  | cons c rest ih =>
    rw [pick, List.findSome?_cons]
    cases hl : List.lookup c row with
    | none => simpa using ih
    | some cell =>
      cases hf : to_float cell with
      | none => simpa [hf] using ih
      | some v => simp [hf]

theorem pick_none {row : List (String × Cell)}
    (h : ∀ kv ∈ row, to_float kv.2 = none) : ∀ cols, pick row cols = none := by
  intro cols
  induction cols with
  | nil => rfl
  | cons c rest ih =>
    rw [pick]
    cases hl : List.lookup c row with
    | none => exact ih
    | some cell =>
      have hc := h (c, cell) (lookup_eq_some_mem hl)
      simp only at hc
      simp [hc, ih]

theorem getLast?_mem {α : Type} : ∀ {l : List α} {a : α}, l.getLast? = some a → a ∈ l := by
  intro l
  induction l with
  | nil => intro a h; simp at h
  | cons x xs ih =>
    intro a h
    cases xs with
    | nil => simp only [List.getLast?_singleton, Option.some.injEq] at h; simp [h]
    | cons y ys =>
      rw [List.getLast?_cons_cons] at h
      exact List.mem_cons_of_mem _ (ih h)

/-! ## `get_northbound_overview` (data_providers.py lines 99–143) -/

/-- One row of the `moneyflow_hsgt` DataFrame: the `trade_date` sort key and
the remaining columns as name/cell pairs. -/
structure NbRow where
  trade_date : String
  cells : List (String × Cell)
deriving DecidableEq, Repr

/-- The two TuShare queries the function can issue: today's range, and the
7-day fallback window. -/
inductive NbQuery
  | today
  | window
deriving DecidableEq, Repr

/-- The northbound overview dict
`{"sh": …, "sz": …, "total": …, "time": …}`. -/
structure NbOverview where
  sh : Option Rat
  sz : Option Rat
  total : Option Rat
  time : String
deriving DecidableEq, Repr

/-- The local helper `r2`: `None if x is None else round(float(x), 2)`. -/
def r2 : Option Rat → Option Rat
  | none => none
  | some x => some (roundTo2 x)

/-- The body of the `try:` block of `get_northbound_overview`: fetch today's
rows, fall back to the 7-day window if empty, take the last row after
sorting by `trade_date`, and resolve the three net-flow columns through
their alias lists (`total` falls back to `sh + sz`).  An `Except.error`
is an exception escaping to the enclosing handler. -/
def nbFetchRows (fetch : NbQuery → Except Unit (List NbRow)) :
    Except Unit (List NbRow) :=
  match fetch .today with
  | .error e => .error e
  | .ok df0 => if df0.isEmpty then fetch .window else .ok df0

theorem nbFetchRows_ok {fetch : NbQuery → Except Unit (List NbRow)} {df : List NbRow}
    (h : nbFetchRows fetch = .ok df) : ∃ q, fetch q = .ok df := by
  rw [nbFetchRows] at h
  split at h
  · cases h
  · rename_i df0 heq
    split at h
    · exact ⟨NbQuery.window, h⟩
    · cases h
      exact ⟨NbQuery.today, heq⟩

/-- Column resolution on the selected last row: the three alias lists, and
the `total = sh + sz` fallback. -/
def nbFromRows (df : List NbRow) : Option Rat × Option Rat × Option Rat :=
  match (sortByKey NbRow.trade_date df).getLast? with
  | none => (none, none, none)
  | some row =>
    let sh := pick row.cells ["sh_net", "hgt", "north_sh", "sh_value"]
    let sz := pick row.cells ["sz_net", "sgt", "north_sz", "sz_value"]
    let total0 := pick row.cells ["hsgt_net", "north_money", "north_net", "north_value"]
    let total := match total0, sh, sz with
      | none, some a, some b => some (radd a b)
      | t0, _, _ => t0
    (sh, sz, total)

def nbTryBody (fetch : NbQuery → Except Unit (List NbRow)) :
    Except Unit (Option Rat × Option Rat × Option Rat) :=
  match nbFetchRows fetch with
  | .error e => .error e
  | .ok df => .ok (nbFromRows df)

/-- `get_northbound_overview`: run the `try:` body; on any exception fall
through with all three values `None`; round to two decimals and attach the
timestamp. -/
def get_northbound_overview (fetch : NbQuery → Except Unit (List NbRow))
    (tNow : String) : NbOverview :=
  match nbTryBody fetch with
  | .error _ => { sh := r2 none, sz := r2 none, total := r2 none, time := tNow }
  | .ok (sh, sz, total) => { sh := r2 sh, sz := r2 sz, total := r2 total, time := tNow }

theorem nb_overview_of_rows {fetch : NbQuery → Except Unit (List NbRow)} {df : List NbRow}
    {t : String} (hw : nbFetchRows fetch = .ok df) :
    get_northbound_overview fetch t =
      { sh := r2 (nbFromRows df).1, sz := r2 (nbFromRows df).2.1,
        total := r2 (nbFromRows df).2.2, time := t } := by
  rw [get_northbound_overview, nbTryBody, hw]

theorem nbFromRows_allna {df : List NbRow}
    (h : ∀ row ∈ df, ∀ kv ∈ row.cells, to_float kv.2 = none) :
    nbFromRows df = (none, none, none) := by
  rw [nbFromRows]
  cases hlast : (sortByKey NbRow.trade_date df).getLast? with
  | none => rfl
  | some row =>
    have hcells := h row (mem_sortByKey (getLast?_mem hlast))
    simp only [pick_none hcells]

/-- If the first query raises, the overview is the all-`None` placeholder. -/
theorem nb_overview_error {fetch : NbQuery → Except Unit (List NbRow)} {t : String}
    (h : fetch NbQuery.today = .error ()) :
    get_northbound_overview fetch t = { sh := none, sz := none, total := none, time := t } := by
  have hf : nbFetchRows fetch = .error () := by rw [nbFetchRows, h]
  rw [get_northbound_overview, nbTryBody, hf]
  rfl

/-- If every row any query returns is entirely unparseable, the overview is
the all-`None` placeholder. -/
theorem nb_overview_malformed {fetch : NbQuery → Except Unit (List NbRow)} {t : String}
    (h : ∀ q df, fetch q = .ok df → ∀ row ∈ df, ∀ kv ∈ row.cells, to_float kv.2 = none) :
    get_northbound_overview fetch t = { sh := none, sz := none, total := none, time := t } := by
  cases hw : nbFetchRows fetch with
  | error e =>
    cases e
    rw [get_northbound_overview, nbTryBody, hw]
    rfl
  | ok df =>
    obtain ⟨q, hq⟩ := nbFetchRows_ok hw
    rw [nb_overview_of_rows hw, nbFromRows_allna (h q df hq)]
    rfl

/-! ## `get_realtime_quotes` (data_providers.py lines 148–240) -/

/-- The `Quote` dataclass. -/
structure Quote where
  code : String
  name : String
  price : Option Rat
  pct : Option Rat
  amount_wan : Option Rat
  time : String
deriving DecidableEq, Repr

/-- `c[-6:]`. -/
def takeRight6 (s : String) : String := ⟨(s.data.reverse.take 6).reverse⟩

/-- `c.startswith("sh")`. -/
def startsWithSh (s : String) : Bool :=
  match s.data with
  | 's' :: 'h' :: _ => true
  | _ => false

/-- `_to_ts_code`: `sh600519 -> 600519.SH`, `sz000001 -> 000001.SZ`; the
inner `normalize_code` call can raise on malformed input. -/
def to_ts_code (code_full : String) : Except String String :=
  match normalize_code code_full with
  | .error e => .error e
  | .ok c => .ok (if startsWithSh c then takeRight6 c ++ ".SH" else takeRight6 c ++ ".SZ")

/-- One row of the 1-minute-bar DataFrame: the time column the code sorts by
(`trade_time`/`datetime`/`trade_date`, modelled as one field) and the cells
read from the last row. -/
structure BarRow where
  tkey : String
  close : Cell
  vol : Cell
  pct_chg : Cell
deriving DecidableEq, Repr

/-- One row of the `pro.daily` DataFrame. -/
structure DailyRow where
  trade_date : String
  pre_close : Cell
  close : Cell
deriving DecidableEq, Repr

/-- The `pro.daily` DataFrame: its rows plus whether the `pre_close` column
exists (a frame-level property in pandas). -/
structure DailyFrame where
  hasPreClose : Bool
  rows : List DailyRow
deriving DecidableEq, Repr

/-- `_calc_amount_wan_from_minbar`: `None` if either input is absent, else
`close * vol / 100` (万元 from close and hand-lots). -/
def calc_amount_wan_from_minbar : Option Rat → Option Rat → Option Rat
  | some close, some vol => some (rdiv (rmul close vol) (rofInt 100))
  | _, _ => none

/-- Read the last minute-bar row (after sorting by the time column):
`(price, amount_wan, pct_chg)`.  An empty frame leaves all three `None`. -/
def barsRead (dfm : List BarRow) : Option Rat × Option Rat × Option Rat :=
  match (sortByKey BarRow.tkey dfm).getLast? with
  | none => (none, none, none)
  | some last =>
    (to_float last.close,
     calc_amount_wan_from_minbar (to_float last.close) (to_float last.vol),
     to_float last.pct_chg)

/-- Derive `pct` from the daily frame: previous close is the `pre_close` of
the last row (after sorting by `trade_date`) when that column exists, else
the `close` of the second-to-last row; `pct` is computed only when the price
is present and the previous close is present and nonzero. -/
def pctFromDaily (price : Option Rat) (dfd : DailyFrame) : Option Rat :=
  match (sortByKey DailyRow.trade_date dfd.rows).getLast? with
  | none => none
  | some lastd =>
    let prev_close :=
      if dfd.hasPreClose then to_float lastd.pre_close
      else
        match (sortByKey DailyRow.trade_date dfd.rows).dropLast.getLast? with
        | some prevd => to_float prevd.close
        | none => none
    match price, prev_close with
    | some pr, some pc =>
      if pc = rofInt 0 then none
      else some (rmul (rsub (rdiv pr pc) (rofInt 1)) (rofInt 100))
    | _, _ => none

/-- The rest of the per-code `try:` block once the minute bars arrived:
prefer the interface `pct_chg`; otherwise fetch the daily frame (one
request, attempt 0) and derive `pct` from the previous close; a raised
daily request keeps the price/amount computed so far.
Returns `(price, pct, amount_wan)`. -/
def quoteFromBars (daily : String → Nat → Except Unit DailyFrame)
    (ts_code : String) (dfm : List BarRow) :
    Option Rat × Option Rat × Option Rat :=
  let pr := barsRead dfm
  match pr.2.2 with
  | some p => (pr.1, some p, pr.2.1)
  | none =>
    match daily ts_code 0 with
    | .error _ => (pr.1, none, pr.2.1)
    | .ok dfd => (pr.1, pctFromDaily pr.1 dfd, pr.2.1)

/-- The whole per-code `try:` block of `get_realtime_quotes`: fetch the
minute bars (one request, attempt 0); a raised request leaves all three
values `None`.  Returns `(price, pct, amount_wan)`. -/
def quoteTryBody (minBar : String → Nat → Except Unit (List BarRow))
    (daily : String → Nat → Except Unit DailyFrame) (ts_code : String) :
    Option Rat × Option Rat × Option Rat :=
  match minBar ts_code 0 with
  | .error _ => (none, none, none)
  | .ok dfm => quoteFromBars daily ts_code dfm

/-- Assemble the `Quote` stored in the result dict: `pct` is rounded to two
decimals when present, `amount_wan` goes through `float(f"{…:.2f}")`. -/
def mkQuote (c2 name : String) (pr : Option Rat × Option Rat × Option Rat)
    (t : String) : Quote :=
  { code := c2, name := name, price := pr.1, pct := r2 pr.2.1,
    amount_wan := r2 pr.2.2, time := t }

/-- The main per-code loop of `get_realtime_quotes` (TuShare client
available).  `normalize_code` and `_to_ts_code` run outside the `try:`
block, so their exceptions escape the function. -/
def quotesLoop (nameOf : String → String)
    (minBar : String → Nat → Except Unit (List BarRow))
    (daily : String → Nat → Except Unit DailyFrame) (t : String) :
    List String → List (String × Quote) → Except String (List (String × Quote))
  | [], res => .ok res
  | code :: rest, res =>
    match normalize_code code with
    | .error e => .error e
    | .ok c2 =>
      match to_ts_code c2 with
      | .error e => .error e
      | .ok tsc =>
        quotesLoop nameOf minBar daily t rest
          (dinsert res c2 (mkQuote c2 (nameOf tsc) (quoteTryBody minBar daily tsc) t))

/-- The fallback loop run when `_get_pro` raises: every code maps to an
all-`None` quote with an empty name. -/
def quotesFallbackLoop (t : String) :
    List String → List (String × Quote) → Except String (List (String × Quote))
  | [], res => .ok res
  | code :: rest, res =>
    match normalize_code code with
    | .error e => .error e
    | .ok c2 => quotesFallbackLoop t rest (dinsert res c2 ⟨c2, "", none, none, none, t⟩)

/-- `get_realtime_quotes`: empty input gives an empty dict; if `_get_pro`
raises (`pro = .error`), fill every code with a placeholder quote; otherwise
fetch each code through the per-code `try:` block. -/
def get_realtime_quotes (pro : Except Unit Unit) (nameOf : String → String)
    (minBar : String → Nat → Except Unit (List BarRow))
    (daily : String → Nat → Except Unit DailyFrame)
    (codes : List String) (t : String) : Except String (List (String × Quote)) :=
  if codes.isEmpty then .ok []
  else
    match pro with
    | .error _ => quotesFallbackLoop t codes []
    | .ok _ => quotesLoop nameOf minBar daily t codes []

theorem quotesFallbackLoop_props (t : String) :
    ∀ (codes : List String) (res : List (String × Quote)),
      (∀ c ∈ codes, ∃ n, normalize_code c = .ok n) →
      ∃ d, quotesFallbackLoop t codes res = .ok d ∧
        (∀ k q, List.lookup k d = some q → List.lookup k res = some q ∨
          (q.name = "" ∧ q.price = none ∧ q.pct = none ∧ q.amount_wan = none)) ∧
        (∀ k, (List.lookup k res).isSome → (List.lookup k d).isSome) ∧
        (∀ c ∈ codes, ∀ n, normalize_code c = .ok n → (List.lookup n d).isSome) := by
  intro codes
  induction codes with
  | nil =>
    intro res _
    exact ⟨res, rfl, fun k q hq => Or.inl hq, fun k hk => hk, by simp⟩
  | cons c rest ih =>
    intro res h
    obtain ⟨n, hn⟩ := h c (by simp)
    obtain ⟨d, hd, hval, hpres, hdom⟩ :=
      ih (dinsert res n ⟨n, "", none, none, none, t⟩) (fun c' hc' => h c' (by simp [hc']))
    refine ⟨d, by simp only [quotesFallbackLoop, hn]; exact hd, ?_, ?_, ?_⟩
    · intro k q hq
      rcases hval k q hq with h1 | h2
      · rcases lookup_dinsert_cases h1 with ⟨hk, hv⟩ | h3
        · subst hv
          exact Or.inr ⟨rfl, rfl, rfl, rfl⟩
        · exact Or.inl h3
      · exact Or.inr h2
    · intro k hk
      exact hpres k (lookup_dinsert_isSome hk)
    · intro c' hc' n' hn'
      rcases List.mem_cons.mp hc' with h1 | h2
      · subst h1
        rw [hn] at hn'
        cases hn'
        refine hpres n ?_
        rw [lookup_dinsert, if_pos rfl]
        rfl
      · exact hdom c' h2 n' hn'

theorem quotesLoop_props (nameOf : String → String)
    (minBar : String → Nat → Except Unit (List BarRow))
    (daily : String → Nat → Except Unit DailyFrame) (t : String) :
    ∀ (codes : List String) (res : List (String × Quote)),
      (∀ c ∈ codes, ∃ n, normalize_code c = .ok n) →
      ∃ d, quotesLoop nameOf minBar daily t codes res = .ok d ∧
        (∀ k q, List.lookup k d = some q → List.lookup k res = some q ∨
          ∃ tsc, q = mkQuote k (nameOf tsc) (quoteTryBody minBar daily tsc) t) ∧
        (∀ k, (List.lookup k res).isSome → (List.lookup k d).isSome) ∧
        (∀ c ∈ codes, ∀ n, normalize_code c = .ok n → (List.lookup n d).isSome) := by
  intro codes
  induction codes with
  | nil =>
    intro res _
    exact ⟨res, rfl, fun k q hq => Or.inl hq, fun k hk => hk, by simp⟩
  | cons c rest ih =>
    intro res h
    obtain ⟨n, hn⟩ := h c (by simp)
    have hself : normalize_code n = .ok n :=
      normalize_code_canonical (normalize_code_output_canonical hn)
    have htsc : to_ts_code n =
        .ok (if startsWithSh n then takeRight6 n ++ ".SH" else takeRight6 n ++ ".SZ") := by
      rw [to_ts_code, hself]
    obtain ⟨d, hd, hval, hpres, hdom⟩ :=
      ih (dinsert res n (mkQuote n
        (nameOf (if startsWithSh n then takeRight6 n ++ ".SH" else takeRight6 n ++ ".SZ"))
        (quoteTryBody minBar daily
          (if startsWithSh n then takeRight6 n ++ ".SH" else takeRight6 n ++ ".SZ")) t))
      (fun c' hc' => h c' (by simp [hc']))
    refine ⟨d, by simp only [quotesLoop, hn, htsc]; exact hd, ?_, ?_, ?_⟩
    · intro k q hq
      rcases hval k q hq with h1 | h2
      · rcases lookup_dinsert_cases h1 with ⟨hk, hv⟩ | h3
        · subst hk
          subst hv
          exact Or.inr ⟨_, rfl⟩
        · exact Or.inl h3
      · exact Or.inr h2
    · intro k hk
      exact hpres k (lookup_dinsert_isSome hk)
    · intro c' hc' n' hn'
      rcases List.mem_cons.mp hc' with h1 | h2
      · subst h1
        rw [hn] at hn'
        cases hn'
        refine hpres n ?_
        rw [lookup_dinsert, if_pos rfl]
        rfl
      · exact hdom c' h2 n' hn'

/-- When every minute-bar request raises, the per-code `try:` block leaves
all three values `None`. -/
theorem quoteTryBody_error {minBar : String → Nat → Except Unit (List BarRow)}
    {daily : String → Nat → Except Unit DailyFrame}
    (hm : ∀ tsc k, minBar tsc k = .error ()) (tsc : String) :
    quoteTryBody minBar daily tsc = (none, none, none) := by
  rw [quoteTryBody, hm tsc 0]

theorem barsRead_malformed {dfm : List BarRow}
    (h : ∀ row ∈ dfm, row.close = Cell.na ∧ row.vol = Cell.na ∧ row.pct_chg = Cell.na) :
    barsRead dfm = (none, none, none) := by
  rw [barsRead]
  cases hlast : (sortByKey BarRow.tkey dfm).getLast? with
  | none => rfl
  | some last =>
    have hl := h last (mem_sortByKey (getLast?_mem hlast))
    show (to_float last.close,
        calc_amount_wan_from_minbar (to_float last.close) (to_float last.vol),
        to_float last.pct_chg) =
      ((none : Option Rat), (none : Option Rat), (none : Option Rat))
    rw [hl.1, hl.2.1, hl.2.2]
    rfl

theorem pctFromDaily_price_none (dfd : DailyFrame) : pctFromDaily none dfd = none := by
  rw [pctFromDaily]
  cases hlast : (sortByKey DailyRow.trade_date dfd.rows).getLast? with
  | none => rfl
  | some lastd => rfl

/-- When every returned minute-bar cell is unparseable, the per-code `try:`
block also leaves all three values `None` (the daily fallback cannot fire
because the price is absent). -/
theorem quoteTryBody_malformed {minBar : String → Nat → Except Unit (List BarRow)}
    {daily : String → Nat → Except Unit DailyFrame}
    (hm : ∀ tsc k dfm, minBar tsc k = .ok dfm →
      ∀ row ∈ dfm, row.close = Cell.na ∧ row.vol = Cell.na ∧ row.pct_chg = Cell.na)
    (tsc : String) : quoteTryBody minBar daily tsc = (none, none, none) := by
  rw [quoteTryBody]
  cases hmb : minBar tsc 0 with
  | error e => rfl
  | ok dfm =>
    show quoteFromBars daily tsc dfm = (none, none, none)
    rw [quoteFromBars, barsRead_malformed (hm tsc 0 dfm hmb)]
    cases hdy : daily tsc 0 with
    | error e => rfl
    | ok dfd =>
      show ((none : Option Rat), pctFromDaily none dfd, (none : Option Rat)) = (none, none, none)
      rw [pctFromDaily_price_none]

/-! ## `get_fund_flow_batch` (data_providers.py lines 245–325) -/

/-- The `FundFlow` dataclass: five net-flow buckets in 万元, as integers. -/
structure FundFlow where
  code : String
  main_wan : Option Int
  huge_wan : Option Int
  large_wan : Option Int
  medium_wan : Option Int
  small_wan : Option Int
  time : String
deriving DecidableEq, Repr

/-- One entry of the Eastmoney `diff` array: `f12` is
`str(it.get("f12") or "")` (so a missing or falsy `f12` is `""`), the five
flow fields are raw cells. -/
structure FfItem where
  f12 : String
  f62 : Cell
  f66 : Cell
  f69 : Cell
  f72 : Cell
  f75 : Cell
deriving DecidableEq, Repr

/-- `_yuan_to_wan_int`: `None` stays `None`, else `int(round(v / 1e4))`. -/
def yuan_to_wan_int : Option Rat → Option Int
  | none => none
  | some v => some (pyRound (rdiv v (rofInt 10000)))

/-- `code_map = {c[-6:]: c for c in norm}` — later entries overwrite. -/
def code_map (norm : List String) : List (String × String) :=
  norm.foldl (fun m c => dinsert m (takeRight6 c) c) []

/-- The all-`None` record used to fill codes missing from the response. -/
def ffPlaceholder (c t : String) : FundFlow :=
  { code := c, main_wan := none, huge_wan := none, large_wan := none,
    medium_wan := none, small_wan := none, time := t }

/-- The record built from one matched response item. -/
def ffFromItem (t full : String) (it : FfItem) : FundFlow :=
  { code := full,
    main_wan := yuan_to_wan_int (to_float it.f62),
    huge_wan := yuan_to_wan_int (to_float it.f66),
    large_wan := yuan_to_wan_int (to_float it.f69),
    medium_wan := yuan_to_wan_int (to_float it.f72),
    small_wan := yuan_to_wan_int (to_float it.f75),
    time := t }

/-- The `for it in diff:` loop: zero-fill the 6-digit code, look it up in
`code_map`, skip unknown codes, store the converted record. -/
def ffLoop (cmap : List (String × String)) (t : String) :
    List FfItem → List (String × FundFlow) → List (String × FundFlow)
  | [], res => res
  | it :: rest, res =>
    match List.lookup (zfill6 it.f12) cmap with
    | none => ffLoop cmap t rest res
    | some full => ffLoop cmap t rest (dinsert res full (ffFromItem t full it))

/-- The final fill loop: every normalized code not in the result gets the
all-`None` placeholder. -/
def ffFill (t : String) : List String → List (String × FundFlow) → List (String × FundFlow)
  | [], res => res
  | c :: rest, res =>
    ffFill t rest (if (List.lookup c res).isSome then res else dinsert res c (ffPlaceholder c t))

/-- The `try:` part of `get_fund_flow_batch`: one HTTP request (attempt 0);
a raised request/decode leaves the dict empty. -/
def ffRaw (cmap : List (String × String)) (t : String)
    (fetch : Nat → Except Unit (List FfItem)) : List (String × FundFlow) :=
  match fetch 0 with
  | .error _ => []
  | .ok items => ffLoop cmap t items []

/-- `get_fund_flow_batch`: empty input gives an empty dict; `normalize_code`
runs before the `try:` block (its exceptions escape); the response items are
matched through `code_map` and every unmatched normalized code is filled
with the placeholder. -/
def get_fund_flow_batch (fetch : Nat → Except Unit (List FfItem))
    (codes : List String) (t : String) : Except String (List (String × FundFlow)) :=
  if codes.isEmpty then .ok []
  else
    match codes.mapM normalize_code with
    | .error e => .error e
    | .ok norm => .ok (ffFill t norm (ffRaw (code_map norm) t fetch))

theorem ffFill_lookup_cases {t : String} :
    ∀ {cs : List String} {res : List (String × FundFlow)} {k : String} {f : FundFlow},
      List.lookup k (ffFill t cs res) = some f →
      List.lookup k res = some f ∨ f = ffPlaceholder k t := by
  intro cs
  induction cs with
  | nil => intro res k f h; exact Or.inl h
  | cons c rest ih =>
    intro res k f h
    rw [ffFill] at h
    by_cases hs : (List.lookup c res).isSome
    · rw [if_pos hs] at h
      exact ih h
    · rw [if_neg hs] at h
      rcases ih h with h1 | h2
      · rcases lookup_dinsert_cases h1 with ⟨hk, hv⟩ | h3
        · subst hk
          exact Or.inr hv
        · exact Or.inl h3
      · exact Or.inr h2

theorem ffFill_pres {t : String} :
    ∀ {cs : List String} {res : List (String × FundFlow)} {k : String},
      (List.lookup k res).isSome → (List.lookup k (ffFill t cs res)).isSome := by
  intro cs
  induction cs with
  | nil => intro res k h; exact h
  | cons c rest ih =>
    intro res k h
    rw [ffFill]
    by_cases hs : (List.lookup c res).isSome
    · rw [if_pos hs]
      exact ih h
    · rw [if_neg hs]
      exact ih (lookup_dinsert_isSome h)

theorem ffFill_mem {t : String} :
    ∀ {cs : List String} {res : List (String × FundFlow)} {c : String},
      c ∈ cs → (List.lookup c (ffFill t cs res)).isSome := by
  intro cs
  induction cs with
  | nil => intro res c h; simp at h
  | cons c0 rest ih =>
    intro res c h
    rw [ffFill]
    rcases List.mem_cons.mp h with h1 | h2
    · subst h1
      by_cases hs : (List.lookup c res).isSome
      · rw [if_pos hs]
        exact ffFill_pres hs
      · rw [if_neg hs]
        refine ffFill_pres ?_
        rw [lookup_dinsert, if_pos rfl]
        rfl
    · by_cases hs : (List.lookup c0 res).isSome
      · rw [if_pos hs]
        exact ih h2
      · rw [if_neg hs]
        exact ih h2

theorem ffFill_isSome_imp {t : String} :
    ∀ {cs : List String} {res : List (String × FundFlow)} {k : String},
      (List.lookup k (ffFill t cs res)).isSome →
      k ∈ cs ∨ (List.lookup k res).isSome := by
  intro cs
  induction cs with
  | nil => intro res k h; exact Or.inr h
  | cons c rest ih =>
    intro res k h
    rw [ffFill] at h
    by_cases hs : (List.lookup c res).isSome
    · rw [if_pos hs] at h
      rcases ih h with h1 | h2
      · exact Or.inl (List.mem_cons_of_mem _ h1)
      · exact Or.inr h2
    · rw [if_neg hs] at h
      rcases ih h with h1 | h2
      · exact Or.inl (List.mem_cons_of_mem _ h1)
      · rw [lookup_dinsert] at h2
        by_cases hk : k = c
        · exact Or.inl (by simp [hk])
        · rw [if_neg hk] at h2
          exact Or.inr h2

theorem ffFill_placeholder {t : String} {cs : List String} {res : List (String × FundFlow)}
    {c : String} (hmem : c ∈ cs) (hnone : List.lookup c res = none) :
    List.lookup c (ffFill t cs res) = some (ffPlaceholder c t) := by
  have hsome := @ffFill_mem t cs res c hmem
  rw [Option.isSome_iff_exists] at hsome
  obtain ⟨f, hf⟩ := hsome
  rcases ffFill_lookup_cases hf with h1 | h2
  · rw [hnone] at h1
    cases h1
  · rw [hf, h2]

theorem ffLoop_lookup_cases {cmap : List (String × String)} {t : String} :
    ∀ {items : List FfItem} {res : List (String × FundFlow)} {k : String} {f : FundFlow},
      List.lookup k (ffLoop cmap t items res) = some f →
      List.lookup k res = some f ∨
        ∃ it ∈ items, List.lookup (zfill6 it.f12) cmap = some k ∧ f = ffFromItem t k it := by
  intro items
  induction items with
  | nil => intro res k f h; exact Or.inl h
  | cons it rest ih =>
    intro res k f h
    rw [ffLoop] at h
    revert h
    cases hm : List.lookup (zfill6 it.f12) cmap with
    | none =>
      intro h
      rcases ih h with h1 | ⟨it', hmem, hl, hv⟩
      · exact Or.inl h1
      · exact Or.inr ⟨it', List.mem_cons_of_mem _ hmem, hl, hv⟩
    | some full =>
      intro h
      rcases ih h with h1 | ⟨it', hmem, hl, hv⟩
      · rcases lookup_dinsert_cases h1 with ⟨hk, hv⟩ | h3
        · subst hk
          exact Or.inr ⟨it, by simp, hm, hv⟩
        · exact Or.inl h3
      · exact Or.inr ⟨it', List.mem_cons_of_mem _ hmem, hl, hv⟩

theorem ffLoop_unmatched {cmap : List (String × String)} {t : String} {k : String} :
    ∀ {items : List FfItem} {res : List (String × FundFlow)},
      (∀ it ∈ items, List.lookup (zfill6 it.f12) cmap ≠ some k) →
      List.lookup k (ffLoop cmap t items res) = List.lookup k res := by
  intro items
  induction items with
  | nil => intro res _; rfl
  | cons it rest ih =>
    intro res h
    rw [ffLoop]
    cases hm : List.lookup (zfill6 it.f12) cmap with
    | none => exact ih (fun it' h' => h it' (List.mem_cons_of_mem _ h'))
    | some full =>
      rw [ih (fun it' h' => h it' (List.mem_cons_of_mem _ h'))]
      rw [lookup_dinsert, if_neg]
      intro hk
      exact h it (by simp) (by rw [hm, hk])

theorem code_map_mem_aux :
    ∀ (l : List String) (m : List (String × String)) {n full : String},
      List.lookup n (l.foldl (fun m c => dinsert m (takeRight6 c) c) m) = some full →
      full ∈ l ∨ List.lookup n m = some full := by
  intro l
  induction l with
  | nil => intro m n full h; exact Or.inr h
  | cons c rest ih =>
    intro m n full h
    rcases ih (dinsert m (takeRight6 c) c) h with h1 | h2
    · exact Or.inl (List.mem_cons_of_mem _ h1)
    · rcases lookup_dinsert_cases h2 with ⟨hk, hv⟩ | h3
      · exact Or.inl (by simp [hv])
      · exact Or.inr h3

theorem code_map_mem {norm : List String} {n full : String}
    (h : List.lookup n (code_map norm) = some full) : full ∈ norm := by
  rcases code_map_mem_aux norm [] h with h1 | h2
  · exact h1
  · simp at h2

theorem mapM_normalize_mem :
    ∀ {codes norm : List String}, codes.mapM normalize_code = .ok norm →
      ∀ k, (k ∈ norm ↔ ∃ c ∈ codes, normalize_code c = .ok k) := by
  intro codes
  induction codes with
  | nil =>
    intro norm h k
    simp only [List.mapM_nil, pure] at h
    cases h
    simp
  | cons c rest ih =>
    intro norm h k
    rw [List.mapM_cons] at h
    revert h
    cases hn : normalize_code c with
    | error e => intro h; cases h
    | ok n =>
      cases hr : rest.mapM normalize_code with
      | error e => intro h; cases h
      | ok ns =>
        intro h
        simp only [hr, bind, Except.bind, pure, Except.pure] at h
        cases h
        constructor
        · intro hk
          rcases List.mem_cons.mp hk with h1 | h2
          · exact ⟨c, by simp, by rw [hn, h1]⟩
          · obtain ⟨c', hc', hok⟩ := (ih hr k).mp h2
            exact ⟨c', List.mem_cons_of_mem _ hc', hok⟩
        · rintro ⟨c', hc', hok⟩
          rcases List.mem_cons.mp hc' with h1 | h2
          · subst h1
            rw [hn] at hok
            cases hok
            simp
          · exact List.mem_cons_of_mem _ ((ih hr k).mpr ⟨c', h2, hok⟩)

/-- Claim C10: the dictionary returned by `get_fund_flow_batch` has exactly
the normalized input codes as its key set, for every provider response;
codes the response does not cover are filled with the all-`None`
`FundFlow`. -/
theorem C10_fund_flow_key_set :
    ∀ (fetch : Nat → Except Unit (List FfItem)) (codes : List String) (t : String)
      (norm : List String),
      codes.mapM normalize_code = .ok norm →
      ∃ d, get_fund_flow_batch fetch codes t = .ok d ∧
        (∀ k, (List.lookup k d).isSome ↔ k ∈ norm) ∧
        (∀ k, k ∈ norm ↔ ∃ c ∈ codes, normalize_code c = .ok k) ∧
        (∀ items, fetch 0 = .ok items → ∀ n ∈ norm,
          (∀ it ∈ items, List.lookup (zfill6 it.f12) (code_map norm) ≠ some n) →
          List.lookup n d = some (ffPlaceholder n t)) ∧
        (fetch 0 = .error () → ∀ n ∈ norm, List.lookup n d = some (ffPlaceholder n t)) := by
  intro fetch codes t norm hm
  by_cases hc : codes.isEmpty
  · have hcodes : codes = [] := by
      cases codes with
      | nil => rfl
      | cons a l => simp at hc
    subst hcodes
    simp only [List.mapM_nil, pure, Except.pure] at hm
    cases hm
    refine ⟨[], by rw [get_fund_flow_batch]; rfl, by simp, by simp, ?_, ?_⟩
    · intro items _ n hn
      simp at hn
    · intro _ n hn
      simp at hn
  · refine ⟨ffFill t norm (ffRaw (code_map norm) t fetch),
      by rw [get_fund_flow_batch, if_neg hc, hm], ?_, mapM_normalize_mem hm, ?_, ?_⟩
    · intro k
      constructor
      · intro h
        rcases ffFill_isSome_imp h with h1 | h2
        · exact h1
        · rw [ffRaw] at h2
          revert h2
          cases hf : fetch 0 with
          | error e => intro h2; simp at h2
          | ok items =>
            intro h2
            rw [Option.isSome_iff_exists] at h2
            obtain ⟨f, hf2⟩ := h2
            rcases ffLoop_lookup_cases hf2 with h3 | ⟨it, _, hl, _⟩
            · simp at h3
            · exact code_map_mem hl
      · intro h
        exact ffFill_mem h
    · intro items hf n hn hmiss
      refine ffFill_placeholder hn ?_
      rw [ffRaw, hf]
      rw [ffLoop_unmatched hmiss]
      rfl
    · intro hf n hn
      refine ffFill_placeholder hn ?_
      rw [ffRaw, hf]
      rfl

/-- Witness for C10 at one concrete code, a response that does not cover
it, and a failing response. -/
theorem C10_witness :
    (["600519"].mapM normalize_code = .ok ["sh600519"]) ∧
    ∃ d, get_fund_flow_batch (fun _ => .ok []) ["600519"] "T" = .ok d ∧
      (∀ k, (List.lookup k d).isSome ↔ k ∈ ["sh600519"]) ∧
      (∀ k, k ∈ ["sh600519"] ↔ ∃ c ∈ ["600519"], normalize_code c = .ok k) ∧
      (∀ items, (fun (_ : Nat) => (.ok [] : Except Unit (List FfItem))) 0 = .ok items →
        ∀ n ∈ ["sh600519"],
        (∀ it ∈ items, List.lookup (zfill6 it.f12) (code_map ["sh600519"]) ≠ some n) →
        List.lookup n d = some (ffPlaceholder n "T")) ∧
      ((fun (_ : Nat) => (.ok [] : Except Unit (List FfItem))) 0 = .error () →
        ∀ n ∈ ["sh600519"], List.lookup n d = some (ffPlaceholder n "T")) :=
  ⟨by decide, C10_fund_flow_key_set (fun _ => .ok []) ["600519"] "T" ["sh600519"] (by decide)⟩

theorem list_isEmpty_eq_nil {α : Type} {l : List α} (h : l.isEmpty = true) : l = [] := by
  cases l with
  | nil => rfl
  | cons a l => simp at h

/-- Claim C1: for every list of valid stock codes, each provider adapter
absorbs provider failure and malformed data instead of raising:
(a) `get_northbound_overview` returns the dict with all three net-flow
values `None` when the TuShare query raises, and (b) likewise when every
returned row is unparseable; (c) `get_realtime_quotes` returns a dict with
an entry for every code whose `price`/`pct`/`amount_wan` are all `None`
when the TuShare client cannot be created, and (d) likewise when every
minute-bar request raises or returns only unparseable rows;
(e) `get_fund_flow_batch` returns a dict mapping every normalized code to
the all-`None` `FundFlow` when the Eastmoney request raises, and (f) returns
records with all five buckets `None` when the response rows are
unparseable.  In every case the adapter returns normally
(`Except.ok`). -/
theorem C1_adapters_absorb_provider_failures :
    (∀ (fetch : NbQuery → Except Unit (List NbRow)) (t : String),
      fetch NbQuery.today = .error () →
      get_northbound_overview fetch t
        = { sh := none, sz := none, total := none, time := t }) ∧
    (∀ (fetch : NbQuery → Except Unit (List NbRow)) (t : String),
      (∀ q df, fetch q = .ok df → ∀ row ∈ df, ∀ kv ∈ row.cells, to_float kv.2 = none) →
      get_northbound_overview fetch t
        = { sh := none, sz := none, total := none, time := t }) ∧
    (∀ (nameOf : String → String) (minBar : String → Nat → Except Unit (List BarRow))
        (daily : String → Nat → Except Unit DailyFrame) (codes : List String) (t : String),
      (∀ c ∈ codes, ∃ n, normalize_code c = .ok n) →
      ∃ d, get_realtime_quotes (.error ()) nameOf minBar daily codes t = .ok d ∧
        (∀ k q, List.lookup k d = some q →
          q.price = none ∧ q.pct = none ∧ q.amount_wan = none) ∧
        (∀ c ∈ codes, ∀ n, normalize_code c = .ok n → (List.lookup n d).isSome)) ∧
    (∀ (nameOf : String → String) (minBar : String → Nat → Except Unit (List BarRow))
        (daily : String → Nat → Except Unit DailyFrame) (codes : List String) (t : String),
      (∀ c ∈ codes, ∃ n, normalize_code c = .ok n) →
      ((∀ tsc k, minBar tsc k = .error ()) ∨
        (∀ tsc k dfm, minBar tsc k = .ok dfm →
          ∀ row ∈ dfm, row.close = Cell.na ∧ row.vol = Cell.na ∧ row.pct_chg = Cell.na)) →
      ∃ d, get_realtime_quotes (.ok ()) nameOf minBar daily codes t = .ok d ∧
        (∀ k q, List.lookup k d = some q →
          q.price = none ∧ q.pct = none ∧ q.amount_wan = none) ∧
        (∀ c ∈ codes, ∀ n, normalize_code c = .ok n → (List.lookup n d).isSome)) ∧
    (∀ (fetch : Nat → Except Unit (List FfItem)) (codes : List String) (t : String)
        (norm : List String),
      codes.mapM normalize_code = .ok norm → fetch 0 = .error () →
      ∃ d, get_fund_flow_batch fetch codes t = .ok d ∧
        (∀ k f, List.lookup k d = some f → f = ffPlaceholder k t) ∧
        (∀ n ∈ norm, (List.lookup n d).isSome)) ∧
    (∀ (fetch : Nat → Except Unit (List FfItem)) (codes : List String) (t : String)
        (norm : List String) (items : List FfItem),
      codes.mapM normalize_code = .ok norm → fetch 0 = .ok items →
      (∀ it ∈ items, it.f62 = Cell.na ∧ it.f66 = Cell.na ∧ it.f69 = Cell.na ∧
        it.f72 = Cell.na ∧ it.f75 = Cell.na) →
      ∃ d, get_fund_flow_batch fetch codes t = .ok d ∧
        (∀ k f, List.lookup k d = some f → f.main_wan = none ∧ f.huge_wan = none ∧
          f.large_wan = none ∧ f.medium_wan = none ∧ f.small_wan = none) ∧
        (∀ n ∈ norm, (List.lookup n d).isSome)) := by
  refine ⟨fun fetch t h => nb_overview_error h,
    fun fetch t h => nb_overview_malformed h, ?_, ?_, ?_, ?_⟩
  · intro nameOf minBar daily codes t h
    by_cases hc : codes.isEmpty
    · refine ⟨[], by rw [get_realtime_quotes, if_pos hc], by simp, ?_⟩
      intro c hmem n hn
      rw [list_isEmpty_eq_nil hc] at hmem
      simp at hmem
    · obtain ⟨d, hd, hval, _, hdom⟩ := quotesFallbackLoop_props t codes [] h
      refine ⟨d, by rw [get_realtime_quotes, if_neg hc]; exact hd, ?_, hdom⟩
      intro k q hq
      rcases hval k q hq with h1 | h2
      · simp at h1
      · exact ⟨h2.2.1, h2.2.2.1, h2.2.2.2⟩
  · intro nameOf minBar daily codes t h hfail
    have hq : ∀ tsc, quoteTryBody minBar daily tsc = (none, none, none) := by
      rcases hfail with hm | hm
      · exact fun tsc => quoteTryBody_error hm tsc
      · exact fun tsc => quoteTryBody_malformed hm tsc
    by_cases hc : codes.isEmpty
    · refine ⟨[], by rw [get_realtime_quotes, if_pos hc], by simp, ?_⟩
      intro c hmem n hn
      rw [list_isEmpty_eq_nil hc] at hmem
      simp at hmem
    · obtain ⟨d, hd, hval, _, hdom⟩ := quotesLoop_props nameOf minBar daily t codes [] h
      refine ⟨d, by rw [get_realtime_quotes, if_neg hc]; exact hd, ?_, hdom⟩
      intro k q hqq
      rcases hval k q hqq with h1 | ⟨tsc, rfl⟩
      · simp at h1
      · rw [mkQuote, hq tsc]
        exact ⟨rfl, rfl, rfl⟩
  · intro fetch codes t norm hm hf
    by_cases hc : codes.isEmpty
    · rw [list_isEmpty_eq_nil hc] at hm ⊢
      simp only [List.mapM_nil, pure, Except.pure] at hm
      cases hm
      refine ⟨[], by rw [get_fund_flow_batch]; rfl, by simp, by simp⟩
    · refine ⟨ffFill t norm (ffRaw (code_map norm) t fetch),
        by rw [get_fund_flow_batch, if_neg hc, hm], ?_, fun n hn => ffFill_mem hn⟩
      intro k f hkf
      rcases ffFill_lookup_cases hkf with h1 | h2
      · rw [ffRaw, hf] at h1
        simp at h1
      · exact h2
  · intro fetch codes t norm items hm hf hna
    by_cases hc : codes.isEmpty
    · rw [list_isEmpty_eq_nil hc] at hm ⊢
      simp only [List.mapM_nil, pure, Except.pure] at hm
      cases hm
      refine ⟨[], by rw [get_fund_flow_batch]; rfl, by simp, by simp⟩
    · refine ⟨ffFill t norm (ffRaw (code_map norm) t fetch),
        by rw [get_fund_flow_batch, if_neg hc, hm], ?_, fun n hn => ffFill_mem hn⟩
      intro k f hkf
      rcases ffFill_lookup_cases hkf with h1 | h2
      · rw [ffRaw, hf] at h1
        rcases ffLoop_lookup_cases h1 with h3 | ⟨it, hmem, _, hv⟩
        · simp at h3
        · have hcells := hna it hmem
          rw [hv, ffFromItem, hcells.1, hcells.2.1, hcells.2.2.1, hcells.2.2.2.1,
            hcells.2.2.2.2]
          exact ⟨rfl, rfl, rfl, rfl, rfl⟩
      · rw [h2, ffPlaceholder]
        exact ⟨rfl, rfl, rfl, rfl, rfl⟩

/-- Witness for C1: all six failure scenarios at concrete inputs. -/
theorem C1_witness :
    (get_northbound_overview (fun _ => .error ()) "T"
      = { sh := none, sz := none, total := none, time := "T" }) ∧
    (get_northbound_overview (fun _ => .ok [⟨"20250101", [("sh_net", Cell.na)]⟩]) "T"
      = { sh := none, sz := none, total := none, time := "T" }) ∧
    (∃ d, get_realtime_quotes (.error ()) (fun _ => "") (fun _ _ => .error ())
        (fun _ _ => .error ()) ["600519"] "T" = .ok d ∧
      (∀ k q, List.lookup k d = some q →
        q.price = none ∧ q.pct = none ∧ q.amount_wan = none) ∧
      (∀ c ∈ ["600519"], ∀ n, normalize_code c = .ok n → (List.lookup n d).isSome)) ∧
    (∃ d, get_realtime_quotes (.ok ()) (fun _ => "") (fun _ _ => .error ())
        (fun _ _ => .error ()) ["600519"] "T" = .ok d ∧
      (∀ k q, List.lookup k d = some q →
        q.price = none ∧ q.pct = none ∧ q.amount_wan = none) ∧
      (∀ c ∈ ["600519"], ∀ n, normalize_code c = .ok n → (List.lookup n d).isSome)) ∧
    (∃ d, get_fund_flow_batch (fun _ => .error ()) ["600519"] "T" = .ok d ∧
      (∀ k f, List.lookup k d = some f → f = ffPlaceholder k "T") ∧
      (∀ n ∈ ["sh600519"], (List.lookup n d).isSome)) ∧
    (∃ d, get_fund_flow_batch (fun _ => .ok [⟨"600519", .na, .na, .na, .na, .na⟩])
        ["600519"] "T" = .ok d ∧
      (∀ k f, List.lookup k d = some f → f.main_wan = none ∧ f.huge_wan = none ∧
        f.large_wan = none ∧ f.medium_wan = none ∧ f.small_wan = none) ∧
      (∀ n ∈ ["sh600519"], (List.lookup n d).isSome)) := by
  have h := C1_adapters_absorb_provider_failures
  refine ⟨h.1 _ "T" rfl, h.2.1 _ "T" ?_, ?_, ?_, ?_, ?_⟩
  · intro q df hdf row hrow kv hkv
    cases hdf
    simp only [List.mem_singleton] at hrow
    subst hrow
    simp only [List.mem_singleton] at hkv
    subst hkv
    rfl
  · exact h.2.2.1 _ _ _ ["600519"] "T"
      (fun c hc => ⟨"sh600519", by rcases List.mem_singleton.mp hc; decide⟩)
  · exact h.2.2.2.1 _ _ _ ["600519"] "T"
      (fun c hc => ⟨"sh600519", by rcases List.mem_singleton.mp hc; decide⟩)
      (Or.inl (fun _ _ => rfl))
  · exact h.2.2.2.2.1 _ ["600519"] "T" ["sh600519"] (by decide) rfl
  · exact h.2.2.2.2.2 _ ["600519"] "T" ["sh600519"] [⟨"600519", .na, .na, .na, .na, .na⟩]
      (by decide) rfl (by decide)

/-- Claim C8 fails as stated: with a transient failure — attempt 0 raises,
attempt 1 would return a well-formed response covering the requested code —
`get_fund_flow_batch` still returns the all-`None` placeholder: it never
re-attempts the request.  The second conjunct shows the data that a single
retry would have delivered (the values the adapter returns when the same
response arrives on attempt 0). -/
theorem C8_counterexample :
    get_fund_flow_batch
        (fun n => if n = 0 then .error () else
          .ok [⟨"600519", Cell.num (rofInt 65000000), Cell.num (rofInt 65000000),
            Cell.num (rofInt 65000000), Cell.num (rofInt 65000000),
            Cell.num (rofInt 65000000)⟩])
        ["600519"] "T"
      = .ok [("sh600519", ffPlaceholder "sh600519" "T")] ∧
    get_fund_flow_batch
        (fun _ =>
          .ok [⟨"600519", Cell.num (rofInt 65000000), Cell.num (rofInt 65000000),
            Cell.num (rofInt 65000000), Cell.num (rofInt 65000000),
            Cell.num (rofInt 65000000)⟩])
        ["600519"] "T"
      = .ok [("sh600519",
          { code := "sh600519", main_wan := some 6500, huge_wan := some 6500,
            large_wan := some 6500, medium_wan := some 6500, small_wan := some 6500,
            time := "T" })] := by
  exact ⟨by decide, by decide⟩

theorem quoteFromBars_congr {daily daily' : String → Nat → Except Unit DailyFrame}
    (hd : ∀ tsc, daily tsc 0 = daily' tsc 0) (tsc : String) (dfm : List BarRow) :
    quoteFromBars daily tsc dfm = quoteFromBars daily' tsc dfm := by
  rw [quoteFromBars, quoteFromBars, hd tsc]

theorem quoteTryBody_congr {minBar minBar' : String → Nat → Except Unit (List BarRow)}
    {daily daily' : String → Nat → Except Unit DailyFrame}
    (hm : ∀ tsc, minBar tsc 0 = minBar' tsc 0) (hd : ∀ tsc, daily tsc 0 = daily' tsc 0)
    (tsc : String) :
    quoteTryBody minBar daily tsc = quoteTryBody minBar' daily' tsc := by
  rw [quoteTryBody, quoteTryBody, hm tsc]
  cases minBar' tsc 0 with
  | error e => rfl
  | ok dfm => exact quoteFromBars_congr hd tsc dfm

theorem quotesLoop_congr (nameOf : String → String)
    {minBar minBar' : String → Nat → Except Unit (List BarRow)}
    {daily daily' : String → Nat → Except Unit DailyFrame}
    (hm : ∀ tsc, minBar tsc 0 = minBar' tsc 0) (hd : ∀ tsc, daily tsc 0 = daily' tsc 0)
    (t : String) :
    ∀ (codes : List String) (res : List (String × Quote)),
      quotesLoop nameOf minBar daily t codes res
        = quotesLoop nameOf minBar' daily' t codes res := by
  intro codes
  induction codes with
  | nil => intro res; rfl
  | cons c rest ih =>
    intro res
    simp only [quotesLoop]
    cases hn : normalize_code c with
    | error e => rfl
    | ok c2 =>
      cases ht : to_ts_code c2 with
      | error e => simp [ht]
      | ok tsc => simp [ht, quoteTryBody_congr hm hd tsc, ih]

/-- Claim C8 (amended): each provider adapter makes exactly one outbound
attempt per request site — no retries, no backoff.  Formally, the result of
`get_fund_flow_batch` and of `get_realtime_quotes` depends only on attempt
`0` of each request oracle, and a fund-flow run whose single attempt fails
is indistinguishable from one in which every attempt fails; on that failure
the adapter immediately returns its placeholder result (claim C1). -/
theorem C8_single_attempt_no_retry :
    (∀ (fetch fetch' : Nat → Except Unit (List FfItem)) (codes : List String) (t : String),
      fetch 0 = fetch' 0 →
      get_fund_flow_batch fetch codes t = get_fund_flow_batch fetch' codes t) ∧
    (∀ (pro : Except Unit Unit) (nameOf : String → String)
        (minBar minBar' : String → Nat → Except Unit (List BarRow))
        (daily daily' : String → Nat → Except Unit DailyFrame)
        (codes : List String) (t : String),
      (∀ tsc, minBar tsc 0 = minBar' tsc 0) → (∀ tsc, daily tsc 0 = daily' tsc 0) →
      get_realtime_quotes pro nameOf minBar daily codes t
        = get_realtime_quotes pro nameOf minBar' daily' codes t) ∧
    (∀ (fetch : Nat → Except Unit (List FfItem)) (codes : List String) (t : String),
      fetch 0 = .error () →
      get_fund_flow_batch fetch codes t
        = get_fund_flow_batch (fun _ => .error ()) codes t) := by
  have hbatch : ∀ (fetch fetch' : Nat → Except Unit (List FfItem)) codes t,
      fetch 0 = fetch' 0 →
      get_fund_flow_batch fetch codes t = get_fund_flow_batch fetch' codes t := by
    intro fetch fetch' codes t h
    simp only [get_fund_flow_batch, ffRaw, h]
  refine ⟨hbatch, ?_, ?_⟩
  · intro pro nameOf minBar minBar' daily daily' codes t hm hd
    by_cases hc : codes.isEmpty
    · simp only [get_realtime_quotes, if_pos hc]
    · simp only [get_realtime_quotes, if_neg hc]
      cases pro with
      | error e => rfl
      | ok u => exact quotesLoop_congr nameOf hm hd t codes []
  · intro fetch codes t h
    exact hbatch fetch (fun _ => .error ()) codes t h

/-- Witness for C8's amended theorem: concrete oracles agreeing on attempt
`0` but disagreeing on attempt `1` give identical adapter results. -/
theorem C8_witness :
    get_fund_flow_batch
        (fun n => if n = 0 then .error () else .ok [⟨"600519", .na, .na, .na, .na, .na⟩])
        ["600519"] "T"
      = get_fund_flow_batch (fun _ => .error ()) ["600519"] "T" ∧
    get_realtime_quotes (.ok ()) (fun _ => "")
        (fun _ n => if n = 0 then .error () else .ok []) (fun _ _ => .error ())
        ["600519"] "T"
      = get_realtime_quotes (.ok ()) (fun _ => "") (fun _ _ => .error ())
        (fun _ _ => .error ()) ["600519"] "T" :=
  ⟨C8_single_attempt_no_retry.1 _ _ ["600519"] "T" rfl,
   C8_single_attempt_no_retry.2.1 (.ok ()) _ _ _ _ _ ["600519"] "T"
     (fun _ => rfl) (fun _ => rfl)⟩

/-! ## build_all.py: config loading, feed building, batch driver -/

/-- The parsed YAML of one user config file: `isDict` records whether
`yaml.safe_load` produced a dict; the string fields hold the raw
`str(data.get(key, ""))` values (stripping happens in `load_user_yaml`). -/
structure RawConfig where
  isDict : Bool
  user_id : String
  token : String
  title : String
  stocks : List String
deriving DecidableEq, Repr

/-- The validated per-user configuration. -/
structure UserConfig where
  user_id : String
  token : String
  title : String
  stocks : List String
deriving DecidableEq, Repr

/-- `TOKEN_RE = ^[A-Za-z0-9]{6,32}$`. -/
def tokenOk (s : String) : Bool :=
  decide (6 ≤ s.data.length) && decide (s.data.length ≤ 32) &&
    s.data.all (fun c => isDigitChar c || (decide ('A' ≤ c) && decide (c ≤ 'Z')) ||
      (decide ('a' ≤ c) && decide (c ≤ 'z')))

/-- `load_user_yaml`: reject non-dict YAML; strip the fields; default the
title to `{user_id} 的盯盘`; require a nonempty `user_id` and a token
matching `TOKEN_RE`; normalize every stock code (a bad code raises, which
skips this user in the driver). -/
def load_user_yaml (d : RawConfig) : Except String UserConfig :=
  if !d.isDict then .error "YAML 不是字典"
  else
    let user_id := pyStrip d.user_id
    let token := pyStrip d.token
    let title := if pyStrip d.title = "" then user_id ++ " 的盯盘" else pyStrip d.title
    if user_id = "" || !tokenOk token then
      .error "user_id/token 不合法（token 需 6–32 位字母或数字）"
    else
      match d.stocks.mapM normalize_code with
      | .error e => .error e
      | .ok norm => .ok ⟨user_id, token, title, norm⟩

/-- The timestamps one run derives from `datetime.now()`: `%Y%m%d`,
`%Y%m%d%H%M`, `%Y-%m-%d %H:%M`, `%Y-%m-%d %H:%M:%S`. -/
structure Now where
  ymd : String
  ymdhm : String
  hm : String
  hms : String
deriving DecidableEq, Repr

/-- One feed entry (id/title/description; the link is the constant
`SITE_LINK` and the published/updated dates are `now`, not modelled as
separate fields). -/
structure Entry where
  id : String
  title : String
  description : String
deriving DecidableEq, Repr

/-- `item.id(f"{user_id}-{c}-{now:%Y%m%d}")`. -/
def stockEntryId (u : UserConfig) (now : Now) (c : String) : String :=
  u.user_id ++ "-" ++ c ++ "-" ++ now.ymd

/-- `snap.id(f"{user_id}-snapshot-{now:%Y%m%d%H%M}")`. -/
def snapId (u : UserConfig) (now : Now) : String :=
  u.user_id ++ "-snapshot-" ++ now.ymdhm

/-- View an optional integer flow bucket as an optional float, the way the
formatting helpers receive it. -/
def optIntRat : Option Int → Option Rat
  | none => none
  | some i => some (rofInt i)

/-- One per-stock entry of `build_feed_for_user`. -/
def stockEntry (fmt : PyFmt) (u : UserConfig) (now : Now)
    (quotes : List (String × Quote)) (flows : List (String × FundFlow))
    (c : String) : Entry :=
  let q := List.lookup c quotes
  let f := List.lookup c flows
  let name := match q with
    | some qq => if qq.name ≠ "" then qq.name else pyUpper c
    | none => pyUpper c
  let titleItem := match q with
    | none => name ++ "（行情暂不可用）"
    | some qq =>
      match qq.price, qq.pct with
      | some p, some pc => name ++ " " ++ fmt.f2 p ++ "（" ++ fmt.p2 pc ++ "%）"
      | some p, none => name ++ " " ++ fmt.f2 p
      | none, _ => name ++ "（行情暂不可用）"
  let desc0 := match f with
    | some ff =>
      "<p>资金流（万元）：主力 " ++ fmt_wan_int fmt (optIntRat ff.main_wan) ++ "（" ++
        dir_arrow (optIntRat ff.main_wan) ++ "） | 超大单 " ++
        fmt_wan_int fmt (optIntRat ff.huge_wan) ++ "（" ++
        dir_arrow (optIntRat ff.huge_wan) ++ "） | 大单 " ++
        fmt_wan_int fmt (optIntRat ff.large_wan) ++ "（" ++
        dir_arrow (optIntRat ff.large_wan) ++ "） | 中单 " ++
        fmt_wan_int fmt (optIntRat ff.medium_wan) ++ "（" ++
        dir_arrow (optIntRat ff.medium_wan) ++ "） | 小单 " ++
        fmt_wan_int fmt (optIntRat ff.small_wan) ++ "（" ++
        dir_arrow (optIntRat ff.small_wan) ++ "）</p>"
    | none => "<p>资金流（万元）：暂无数据</p>"
  let desc := match q with
    | some qq =>
      match qq.amount_wan with
      | some aw => desc0 ++ "<p>成交额：" ++ to_yi_from_wan fmt (some aw) ++ "</p>"
      | none => desc0
    | none => desc0
  { id := stockEntryId u now c, title := titleItem, description := desc }

/-- The `nb_text` helper of the snapshot item (the overview dict always has
a `total` key, so the check collapses to `total is None`). -/
def nb_text (fmt : PyFmt) (ov : NbOverview) : String :=
  match ov.total with
  | none => "北向资金：接口暂不可用 / 闭市"
  | some tot =>
    "北向资金（亿元）｜沪股通 " ++ pyOptStr fmt.rep ov.sh ++ "｜深股通 " ++
      pyOptStr fmt.rep ov.sz ++ "｜合计 " ++ fmt.rep tot ++ "｜时间 " ++ ov.time

/-- The synthetic snapshot entry appended on every run. -/
def snapshotEntry (fmt : PyFmt) (u : UserConfig) (now : Now) (ov : NbOverview) : Entry :=
  { id := snapId u now,
    title := u.title ++ " 实时快照 @ " ++ now.hm,
    description :=
      "<ul>\n  <li>更新时间：" ++ now.hms ++ "</li>\n  <li>" ++ nb_text fmt ov ++
        "</li>\n  <li>覆盖股票数：" ++ toString u.stocks.length ++ "</li>\n</ul>" }

/-- `build_feed_for_user`: northbound overview, quotes and flows (each
skipped when the stock list is empty), one entry per stock, then the
snapshot entry; returns the entries and the output file name
`{user_id}-{token}.xml`. -/
def build_feed_for_user (fmt : PyFmt) (nbFetch : NbQuery → Except Unit (List NbRow))
    (pro : Except Unit Unit) (nameOf : String → String)
    (minBar : String → Nat → Except Unit (List BarRow))
    (daily : String → Nat → Except Unit DailyFrame)
    (ffFetch : Nat → Except Unit (List FfItem))
    (u : UserConfig) (now : Now) : Except String (List Entry × String) :=
  let overview := get_northbound_overview nbFetch now.hms
  match (if u.stocks.isEmpty then .ok [] else
      get_realtime_quotes pro nameOf minBar daily u.stocks now.hms) with
  | .error e => .error e
  | .ok quotes =>
    match (if u.stocks.isEmpty then .ok [] else
        get_fund_flow_batch ffFetch u.stocks now.hms) with
    | .error e => .error e
    | .ok flows =>
      .ok (u.stocks.map (stockEntry fmt u now quotes flows)
            ++ [snapshotEntry fmt u now overview],
        u.user_id ++ "-" ++ u.token ++ ".xml")

theorem stockEntry_id (fmt : PyFmt) (u : UserConfig) (now : Now)
    (quotes : List (String × Quote)) (flows : List (String × FundFlow)) (c : String) :
    (stockEntry fmt u now quotes flows c).id = stockEntryId u now c := rfl

theorem snapshotEntry_id (fmt : PyFmt) (u : UserConfig) (now : Now) (ov : NbOverview) :
    (snapshotEntry fmt u now ov).id = snapId u now := rfl

theorem get_realtime_quotes_ok {pro : Except Unit Unit} {nameOf : String → String}
    {minBar : String → Nat → Except Unit (List BarRow)}
    {daily : String → Nat → Except Unit DailyFrame} {codes : List String} {t : String}
    (h : ∀ c ∈ codes, ∃ n, normalize_code c = .ok n) :
    ∃ d, get_realtime_quotes pro nameOf minBar daily codes t = .ok d := by
  by_cases hc : codes.isEmpty
  · exact ⟨[], by rw [get_realtime_quotes.eq_def, if_pos hc]⟩
  · cases pro with
    | error e =>
      obtain ⟨d, hd, -, -, -⟩ := quotesFallbackLoop_props t codes [] h
      exact ⟨d, by rw [get_realtime_quotes, if_neg hc]; exact hd⟩
    | ok v =>
      obtain ⟨d, hd, -, -, -⟩ := quotesLoop_props nameOf minBar daily t codes [] h
      exact ⟨d, by rw [get_realtime_quotes, if_neg hc]; exact hd⟩

theorem get_fund_flow_batch_ok {fetch : Nat → Except Unit (List FfItem)}
    {codes norm : List String} {t : String}
    (hm : codes.mapM normalize_code = .ok norm) :
    ∃ d, get_fund_flow_batch fetch codes t = .ok d := by
  by_cases hc : codes.isEmpty
  · exact ⟨[], by rw [get_fund_flow_batch, if_pos hc]⟩
  · exact ⟨_, by rw [get_fund_flow_batch, if_neg hc, hm]⟩

theorem mapM_normalize_canonical {stocks : List String}
    (h : ∀ s ∈ stocks, matchesPrefixed s = true) :
    stocks.mapM normalize_code = .ok stocks := by
  induction stocks with
  | nil => rfl
  | cons s rest ih =>
    rw [List.mapM_cons, normalize_code_canonical (h s (by simp)),
      ih (fun s' hs => h s' (by simp [hs]))]
    rfl

/-- A feed build succeeds whenever the user's stock list is already in
canonical form (as `load_user_yaml` guarantees), and returns the expected
file name. -/
theorem build_feed_for_user_ok (fmt : PyFmt) (nbFetch : NbQuery → Except Unit (List NbRow))
    (pro : Except Unit Unit) (nameOf : String → String)
    (minBar : String → Nat → Except Unit (List BarRow))
    (daily : String → Nat → Except Unit DailyFrame)
    (ffFetch : Nat → Except Unit (List FfItem))
    (u : UserConfig) (now : Now) (hs : ∀ s ∈ u.stocks, matchesPrefixed s = true) :
    ∃ quotes flows,
      build_feed_for_user fmt nbFetch pro nameOf minBar daily ffFetch u now =
        .ok (u.stocks.map (stockEntry fmt u now quotes flows)
              ++ [snapshotEntry fmt u now (get_northbound_overview nbFetch now.hms)],
          u.user_id ++ "-" ++ u.token ++ ".xml") := by
  have hvalid : ∀ c ∈ u.stocks, ∃ n, normalize_code c = .ok n :=
    fun c hc => ⟨c, normalize_code_canonical (hs c hc)⟩
  have hq : ∃ d, (if u.stocks.isEmpty then .ok [] else
      get_realtime_quotes pro nameOf minBar daily u.stocks now.hms) = .ok d := by
    by_cases hc : u.stocks.isEmpty
    · exact ⟨[], by rw [if_pos hc]⟩
    · obtain ⟨d, hd⟩ := @get_realtime_quotes_ok pro nameOf minBar daily u.stocks now.hms hvalid
      exact ⟨d, by rw [if_neg hc]; exact hd⟩
  have hf : ∃ d, (if u.stocks.isEmpty then .ok [] else
      get_fund_flow_batch ffFetch u.stocks now.hms) = .ok d := by
    by_cases hc : u.stocks.isEmpty
    · exact ⟨[], by rw [if_pos hc]⟩
    · obtain ⟨d, hd⟩ := @get_fund_flow_batch_ok ffFetch u.stocks u.stocks now.hms
        (mapM_normalize_canonical hs)
      exact ⟨d, by rw [if_neg hc]; exact hd⟩
  obtain ⟨quotes, hq⟩ := hq
  obtain ⟨flows, hf⟩ := hf
  exact ⟨quotes, flows, by rw [build_feed_for_user, hq, hf]⟩

theorem stockEntryId_ne_snapId (u : UserConfig) (now : Now) {c : String}
    (hc : matchesPrefixed c = true) : stockEntryId u now c ≠ snapId u now := by
  intro h
  have hd := congrArg String.data h
  rw [stockEntryId, snapId] at hd
  simp only [data_append, List.append_assoc] at hd
  have h2 := List.append_cancel_left hd
  obtain ⟨x, ds, hcd, hx, -, -⟩ := matchesPrefixed_shape hc
  rw [hcd] at h2
  simp only [List.cons_append, List.singleton_append] at h2
  injection h2 with h3 h4
  injection h4 with h5 h6
  injection h6 with h7 h8
  rcases hx with h9 | h9 <;> (rw [h9] at h7; exact absurd h7 (by decide))

/-- Claim C9: for every valid user config (stocks already canonical,
including the empty list), every run of `build_feed_for_user` succeeds and
appends exactly one synthetic snapshot entry, as the last entry, whose
identifier is `{user_id}-snapshot-{minute timestamp}`; two runs in
different minutes therefore produce distinct snapshot identifiers. -/
theorem C9_snapshot_entry_every_run :
    ∀ (fmt : PyFmt) (nbFetch : NbQuery → Except Unit (List NbRow))
      (pro : Except Unit Unit) (nameOf : String → String)
      (minBar : String → Nat → Except Unit (List BarRow))
      (daily : String → Nat → Except Unit DailyFrame)
      (ffFetch : Nat → Except Unit (List FfItem))
      (u : UserConfig) (now : Now),
      (∀ s ∈ u.stocks, matchesPrefixed s = true) →
      ∃ entries,
        build_feed_for_user fmt nbFetch pro nameOf minBar daily ffFetch u now
          = .ok (entries, u.user_id ++ "-" ++ u.token ++ ".xml") ∧
        entries.countP (fun e => e.id == snapId u now) = 1 ∧
        entries.getLast? = some (snapshotEntry fmt u now
          (get_northbound_overview nbFetch now.hms)) ∧
        (snapshotEntry fmt u now (get_northbound_overview nbFetch now.hms)).id
          = u.user_id ++ "-snapshot-" ++ now.ymdhm ∧
        (∀ n1 n2 : Now, n1.ymdhm ≠ n2.ymdhm → snapId u n1 ≠ snapId u n2) := by
  intro fmt nbFetch pro nameOf minBar daily ffFetch u now hs
  obtain ⟨quotes, flows, hb⟩ :=
    build_feed_for_user_ok fmt nbFetch pro nameOf minBar daily ffFetch u now hs
  refine ⟨_, hb, ?_, List.getLast?_concat _, rfl, ?_⟩
  · rw [List.countP_append]
    have h0 : (u.stocks.map (stockEntry fmt u now quotes flows)).countP
        (fun e => e.id == snapId u now) = 0 := by
      rw [List.countP_eq_zero]
      intro e he
      obtain ⟨c, hcmem, rfl⟩ := List.mem_map.mp he
      simp only [stockEntry_id, beq_iff_eq]
      exact stockEntryId_ne_snapId u now (hs c hcmem)
    rw [h0]
    simp [snapshotEntry_id]
  · intro n1 n2 hne h
    have hd := congrArg String.data h
    rw [snapId, snapId] at hd
    simp only [data_append, List.append_assoc] at hd
    have h2 := List.append_cancel_left hd
    have h3 := List.append_cancel_left h2
    exact hne (data_inj h3)

/-- Witness for C9 at a concrete user, minute, and failing providers. -/
theorem C9_witness :
    (∀ s ∈ ["sh600519"], matchesPrefixed s = true) ∧
    ∃ entries,
      build_feed_for_user ⟨fun _ => "", fun _ => "", fun _ => "", fun _ => "",
          fun _ => "", fun _ => ""⟩
        (fun _ => .error ()) (.error ()) (fun _ => "") (fun _ _ => .error ())
        (fun _ _ => .error ()) (fun _ => .error ())
        ⟨"alice", "token123", "Watch", ["sh600519"]⟩
        ⟨"20251012", "202510121030", "2025-10-12 10:30", "2025-10-12 10:30:00"⟩
        = .ok (entries, "alice" ++ "-" ++ "token123" ++ ".xml") ∧
      entries.countP (fun e => e.id == snapId
        ⟨"alice", "token123", "Watch", ["sh600519"]⟩
        ⟨"20251012", "202510121030", "2025-10-12 10:30", "2025-10-12 10:30:00"⟩) = 1 ∧
      entries.getLast? = some (snapshotEntry ⟨fun _ => "", fun _ => "", fun _ => "",
          fun _ => "", fun _ => "", fun _ => ""⟩
        ⟨"alice", "token123", "Watch", ["sh600519"]⟩
        ⟨"20251012", "202510121030", "2025-10-12 10:30", "2025-10-12 10:30:00"⟩
        (get_northbound_overview (fun _ => .error ()) "2025-10-12 10:30:00")) ∧
      (snapshotEntry ⟨fun _ => "", fun _ => "", fun _ => "", fun _ => "",
          fun _ => "", fun _ => ""⟩
        ⟨"alice", "token123", "Watch", ["sh600519"]⟩
        ⟨"20251012", "202510121030", "2025-10-12 10:30", "2025-10-12 10:30:00"⟩
        (get_northbound_overview (fun _ => .error ()) "2025-10-12 10:30:00")).id
        = "alice" ++ "-snapshot-" ++ "202510121030" ∧
      (∀ n1 n2 : Now, n1.ymdhm ≠ n2.ymdhm →
        snapId ⟨"alice", "token123", "Watch", ["sh600519"]⟩ n1
          ≠ snapId ⟨"alice", "token123", "Watch", ["sh600519"]⟩ n2) :=
  ⟨by decide,
   C9_snapshot_entry_every_run _ _ _ _ _ _ _ _ _ (by decide)⟩

/-- One file in `configs/users/*.yaml`: its name (the driver sorts by it),
whether its first byte is `<` (the HTML guard), and its parsed content. -/
structure ConfigFile where
  name : String
  startsWithLt : Bool
  data : RawConfig

/-- The user list the driver builds: files sorted by name; HTML-looking
files skipped; files whose `load_user_yaml` raises skipped. -/
def mainUsers (files : List ConfigFile) : List UserConfig :=
  (sortByKey ConfigFile.name files).filterMap fun f =>
    if f.startsWithLt then none else (load_user_yaml f.data).toOption

/-- The per-user build loop of `main`: each user whose build raises is
logged and skipped; the returned list is the names of the files written. -/
def mainRun (build : UserConfig → Except String String)
    (files : List ConfigFile) : List String :=
  (mainUsers files).filterMap fun u => (build u).toOption

theorem load_user_yaml_token_invalid {d : RawConfig}
    (h : tokenOk (pyStrip d.token) = false) :
    ∃ msg, load_user_yaml d = .error msg := by
  rw [load_user_yaml]
  by_cases hd : d.isDict
  · rw [if_neg (by simp [hd])]
    simp only [h]
    exact ⟨_, by rw [if_pos (by simp)]⟩
  · rw [if_pos (by simp [hd])]
    exact ⟨_, rfl⟩

theorem mapM_normalize_output_canonical :
    ∀ {stocks norm : List String}, stocks.mapM normalize_code = .ok norm →
      ∀ s ∈ norm, matchesPrefixed s = true := by
  intro stocks
  induction stocks with
  | nil =>
    intro norm h s hs
    simp only [List.mapM_nil, pure, Except.pure] at h
    cases h
    simp at hs
  | cons c rest ih =>
    intro norm h s hs
    rw [List.mapM_cons] at h
    revert h
    cases hn : normalize_code c with
    | error e => intro h; cases h
    | ok n =>
      cases hr : rest.mapM normalize_code with
      | error e => intro h; cases h
      | ok ns =>
        intro h
        simp only [hr, bind, Except.bind, pure, Except.pure] at h
        cases h
        rcases List.mem_cons.mp hs with h1 | h2
        · subst h1
          exact normalize_code_output_canonical hn
        · exact ih hr s h2

theorem load_user_yaml_stocks_canonical {d : RawConfig} {u : UserConfig}
    (h : load_user_yaml d = .ok u) : ∀ s ∈ u.stocks, matchesPrefixed s = true := by
  rw [load_user_yaml] at h
  by_cases hd : d.isDict
  · rw [if_neg (by simp [hd])] at h
    by_cases hv : pyStrip d.user_id = "" || !tokenOk (pyStrip d.token)
    · rw [if_pos hv] at h
      cases h
    · rw [if_neg hv] at h
      revert h
      cases hm : d.stocks.mapM normalize_code with
      | error e => intro h; cases h
      | ok norm =>
        intro h
        cases h
        exact mapM_normalize_output_canonical hm
  · rw [if_pos (by simp [hd])] at h
    cases h

/-- Claim C2: (i) in general, a user present in the parsed user list whose
own build succeeds always gets their file written, whatever happens to the
other users (an exception in one user's build never removes another user's
output); (ii) with one config whose token fails `TOKEN_RE` and one valid
config, the driver skips the invalid one, writes exactly the valid user's
`{user_id}-{token}.xml`, and terminates normally (`mainRun` is a total
function). -/
theorem C2_batch_driver_isolation :
    (∀ (build : UserConfig → Except String String) (files : List ConfigFile)
        (u : UserConfig) (n : String),
      u ∈ mainUsers files → build u = .ok n → n ∈ mainRun build files) ∧
    (∀ (fmt : PyFmt) (nbFetch : NbQuery → Except Unit (List NbRow))
        (pro : Except Unit Unit) (nameOf : String → String)
        (minBar : String → Nat → Except Unit (List BarRow))
        (daily : String → Nat → Except Unit DailyFrame)
        (ffFetch : Nat → Except Unit (List FfItem)) (now : Now)
        (nameB nameG : String) (dBad dGood : RawConfig) (uG : UserConfig),
      tokenOk (pyStrip dBad.token) = false →
      load_user_yaml dGood = .ok uG →
      mainRun (fun u => (build_feed_for_user fmt nbFetch pro nameOf minBar daily
            ffFetch u now).map Prod.snd)
          [⟨nameB, false, dBad⟩, ⟨nameG, false, dGood⟩]
        = [uG.user_id ++ "-" ++ uG.token ++ ".xml"]) := by
  constructor
  · intro build files u n hu hb
    rw [mainRun]
    exact List.mem_filterMap.mpr ⟨u, hu, by rw [hb]; rfl⟩
  · intro fmt nbFetch pro nameOf minBar daily ffFetch now nameB nameG dBad dGood uG hbad hG
    obtain ⟨msg, hmsg⟩ := load_user_yaml_token_invalid hbad
    have husers : mainUsers [⟨nameB, false, dBad⟩, ⟨nameG, false, dGood⟩] = [uG] := by
      rw [mainUsers, sortByKey]
      simp only [List.foldl, insSorted]
      by_cases hle : ConfigFile.name ⟨nameB, false, dBad⟩
          ≤ ConfigFile.name ⟨nameG, false, dGood⟩
      · rw [if_pos hle]
        simp [List.filterMap_cons, hmsg, hG, Except.toOption]
      · rw [if_neg hle]
        simp [List.filterMap_cons, hmsg, hG, Except.toOption]
    obtain ⟨quotes, flows, hb⟩ := build_feed_for_user_ok fmt nbFetch pro nameOf minBar
      daily ffFetch uG now (load_user_yaml_stocks_canonical hG)
    rw [mainRun, husers]
    simp [List.filterMap_cons, hb, Except.map, Except.toOption]

/-- Witness for C2: an invalid-token config and a valid config; only the
valid user's file name comes out. -/
theorem C2_witness :
    tokenOk (pyStrip (RawConfig.token ⟨true, "bob", "abc", "", []⟩)) = false ∧
    load_user_yaml ⟨true, "alice", "token123", "", ["600519"]⟩
      = .ok ⟨"alice", "token123", "alice 的盯盘", ["sh600519"]⟩ ∧
    mainRun (fun u => (build_feed_for_user
          ⟨fun _ => "", fun _ => "", fun _ => "", fun _ => "", fun _ => "", fun _ => ""⟩
          (fun _ => .error ()) (.error ()) (fun _ => "") (fun _ _ => .error ())
          (fun _ _ => .error ()) (fun _ => .error ()) u
          ⟨"20251012", "202510121030", "2025-10-12 10:30", "2025-10-12 10:30:00"⟩).map
            Prod.snd)
        [⟨"a.yaml", false, ⟨true, "bob", "abc", "", []⟩⟩,
         ⟨"b.yaml", false, ⟨true, "alice", "token123", "", ["600519"]⟩⟩]
      = ["alice" ++ "-" ++ "token123" ++ ".xml"] :=
  ⟨by decide, by decide,
   C2_batch_driver_isolation.2 _ _ _ _ _ _ _ _ "a.yaml" "b.yaml" _ _
     ⟨"alice", "token123", "alice 的盯盘", ["sh600519"]⟩ (by decide) (by decide)⟩

/-! ## main.py: the older item composer (`compose_items`) -/

/-- One row of the quotes DataFrame consumed by `compose_items`
(`code`, `name`, `price`, `pct_chg`, `amount`, `time`). -/
structure MQuoteRow where
  code : String
  name : String
  price : Option Rat
  pct_chg : Option Rat
  amount : Option Rat
  time : String

/-- The per-stock money-flow dict returned by `get_individual_moneyflow`
(that adapter is called here but lives outside the modelled sources, so it
is an oracle parameter of `compose_items`). -/
structure MfRecord where
  main : Option Rat
  super : Option Rat
  large : Option Rat
  medium : Option Rat
  small : Option Rat
  ts : String

/-- One item dict produced by `compose_items`. -/
structure MItem where
  title : String
  link : String
  description : String
  guid : String
  pubdate : String

/-- The shared northbound summary line (f-strings render `None` as
`"None"`). -/
def northline (fmt : PyFmt) (north : NbOverview) : String :=
  "北向资金（亿元） | 沪股通 " ++ pyOptStr fmt.rep north.sh ++ " | 深股通 " ++
    pyOptStr fmt.rep north.sz ++ " | 合计 " ++ pyOptStr fmt.rep north.total ++
    " | 时间 " ++ north.time

/-- The heartbeat item emitted when no quote rows are available.  The dict
always carries a `total` key, so `north.get('total','—')` returns
`north['total']` (possibly `None`, rendered `"None"`); `epoch` is
`int(time.time())`. -/
def heartbeatItem (fmt : PyFmt) (north : NbOverview) (epoch : Int)
    (nowUtc : String) : MItem :=
  { title := "北向资金心跳 " ++ pyOptStr fmt.rep north.total ++ " 亿元",
    link := "https://stockrss.cuixiaoyuan.cn/",
    description := "<p>个股快照暂不可用，稍后自动重试。</p><p>" ++ northline fmt north
      ++ "</p>",
    guid := "heartbeat-" ++ toString epoch,
    pubdate := nowUtc }

/-- One per-stock item of `compose_items` (the triple-quoted HTML template
with its literal indentation). -/
def stockItemM (fmt : PyFmt) (north : NbOverview) (mf : String → MfRecord)
    (epoch : Int) (nowUtc : String) (row : MQuoteRow) : MItem :=
  let m := mf row.code
  { title := row.name ++ " " ++ fmt_pct fmt row.pct_chg ++ " | 最新 "
      ++ pyOptStr fmt.rep row.price,
    link := "https://xueqiu.com/S/"
      ++ String.replace (String.replace row.code "sh" "SH") "sz" "SZ",
    description := "\n        <p><b>" ++ row.name ++ "（" ++ row.code ++ "）</b></p>\n"
      ++ "        <p>最新价：" ++ pyOptStr fmt.rep row.price ++ "　涨跌幅："
      ++ fmt_pct fmt row.pct_chg ++ "　成交额：" ++ pyOptStr fmt.rep row.amount
      ++ " 亿元　时间：" ++ row.time ++ "</p>\n        <p><b>当日净流入（万元）</b><br/>\n"
      ++ "        主力：" ++ fmt_yn fmt m.main ++ "　超大单：" ++ fmt_yn fmt m.super
      ++ "　大单：" ++ fmt_yn fmt m.large ++ "　\n        中单：" ++ fmt_yn fmt m.medium
      ++ "　小单：" ++ fmt_yn fmt m.small ++ "</p>\n        <p>数据时间（资金流）："
      ++ m.ts ++ "</p>\n        <hr/>\n        <p>" ++ northline fmt north
      ++ "</p>\n        ",
    guid := row.code ++ "-" ++ toString epoch,
    pubdate := nowUtc }

/-- `compose_items`: fetch the northbound overview; if the quotes frame is
`None` or empty, emit exactly one heartbeat item; otherwise one item per
row. -/
def compose_items (fmt : PyFmt) (nbFetch : NbQuery → Except Unit (List NbRow))
    (tNow : String) (mf : String → MfRecord) (epoch : Int) (nowUtc : String)
    (quotes_df : Option (List MQuoteRow)) : List MItem :=
  let north := get_northbound_overview nbFetch tNow
  match quotes_df with
  | none => [heartbeatItem fmt north epoch nowUtc]
  | some rows =>
    if rows.isEmpty then [heartbeatItem fmt north epoch nowUtc]
    else rows.map (stockItemM fmt north mf epoch nowUtc)

/-- Claim C6: whenever the quote adapter yields no rows (frame `None` or
empty), `compose_items` produces exactly one heartbeat item — not zero —
and that item's description carries the northbound summary line. -/
theorem C6_heartbeat_item :
    ∀ (fmt : PyFmt) (nbFetch : NbQuery → Except Unit (List NbRow)) (tNow : String)
      (mf : String → MfRecord) (epoch : Int) (nowUtc : String),
      compose_items fmt nbFetch tNow mf epoch nowUtc none
        = [heartbeatItem fmt (get_northbound_overview nbFetch tNow) epoch nowUtc] ∧
      compose_items fmt nbFetch tNow mf epoch nowUtc (some [])
        = [heartbeatItem fmt (get_northbound_overview nbFetch tNow) epoch nowUtc] ∧
      (compose_items fmt nbFetch tNow mf epoch nowUtc none).length = 1 ∧
      (heartbeatItem fmt (get_northbound_overview nbFetch tNow) epoch nowUtc).description
        = "<p>个股快照暂不可用，稍后自动重试。</p><p>"
          ++ northline fmt (get_northbound_overview nbFetch tNow) ++ "</p>" ∧
      (heartbeatItem fmt (get_northbound_overview nbFetch tNow) epoch nowUtc).guid
        = "heartbeat-" ++ toString epoch :=
  fun _ _ _ _ _ _ => ⟨rfl, rfl, rfl, rfl, rfl⟩

end StocksRss
